import Mathlib

set_option maxHeartbeats 1000000

/-!
Shallow embedding of the linuxkit log-plumbing layer:
the logwrite consumer (LogMessage codec, rotated LogFile, consumer loop)
and the service logging sinks (fileLog / remoteLog Path operations).
Strings model Go strings; the filesystem is an association list from
path to file content; fallible I/O is driven by an explicit Oracle of
injected failures (the empty oracle noFail models failure-free runs).
-/

/-- Decimal digit character, as produced by Go's fmt for digit values. -/
def digitChar : Nat → Char
  | 0 => '0' | 1 => '1' | 2 => '2' | 3 => '3' | 4 => '4'
  | 5 => '5' | 6 => '6' | 7 => '7' | 8 => '8' | 9 => '9'
  | _ => '?'

/-- Numeric value of a digit character. -/
def digitVal (c : Char) : Nat := c.toNat - '0'.toNat

/-- Whether a character is an ASCII decimal digit. -/
def isDigitCh (c : Char) : Bool := decide ('0' ≤ c) && decide (c ≤ '9')

/-- Fuel-driven decimal rendering (most significant digit first). -/
def natCharsAux : Nat → Nat → List Char
  | 0, _ => []
  | fuel+1, n =>
    if n < 10 then [digitChar n]
    else natCharsAux fuel (n / 10) ++ [digitChar (n % 10)]

/-- Decimal rendering of a Nat, as Go's fmt verb for integers. -/
def natChars (n : Nat) : List Char := natCharsAux (n + 1) n

/-- Decimal rendering as a String. -/
def natStr (n : Nat) : String := ⟨natChars n⟩

/-- Value of a decimal digit string (used to invert natChars). -/
def charsVal (l : List Char) : Nat := l.foldl (fun a c => 10 * a + digitVal c) 0

theorem digitVal_digitChar {d : Nat} (h : d < 10) : digitVal (digitChar d) = d := by
  interval_cases d <;> decide

theorem isDigitCh_digitChar {d : Nat} (h : d < 10) : isDigitCh (digitChar d) = true := by
  interval_cases d <;> decide

theorem charsVal_append_singleton (l : List Char) (c : Char) :
    charsVal (l ++ [c]) = 10 * charsVal l + digitVal c := by
  simp [charsVal, List.foldl_append]

theorem charsVal_natCharsAux : ∀ (fuel n : Nat), n < fuel →
    charsVal (natCharsAux fuel n) = n := by
  intro fuel
  induction fuel with
  | zero => intro n h; omega
  | succ f ih =>
    intro n h
    by_cases h10 : n < 10
    · simp [natCharsAux, h10, charsVal, digitVal_digitChar h10]
    · have hdiv : n / 10 < f := by
        have h1 : n / 10 < n := Nat.div_lt_self (by omega) (by omega)
        omega
      have hmod : n % 10 < 10 := Nat.mod_lt _ (by omega)
      simp only [natCharsAux, if_neg h10, charsVal_append_singleton]
      rw [ih _ hdiv, digitVal_digitChar hmod]
      omega

theorem charsVal_natChars (n : Nat) : charsVal (natChars n) = n :=
  charsVal_natCharsAux (n + 1) n (Nat.lt_succ_self n)

theorem natChars_inj {m n : Nat} (h : natChars m = natChars n) : m = n := by
  have hm := charsVal_natChars m
  rw [h, charsVal_natChars] at hm
  omega

theorem string_mk_inj {l l' : List Char} (h : String.mk l = String.mk l') : l = l' := by
  injection h

theorem natStr_inj {m n : Nat} (h : natStr m = natStr n) : m = n :=
  natChars_inj (string_mk_inj h)

theorem string_data_append (s t : String) : (s ++ t).data = s.data ++ t.data := by
  cases s; cases t; rfl

theorem string_eta (s : String) : String.mk s.data = s := by
  cases s; rfl

/-- Byte length of a string, as Go's len on a UTF-8 string. -/
def goLen (s : String) : Nat := (s.data.map Char.utf8Size).sum

theorem goLen_append (s t : String) : goLen (s ++ t) = goLen s + goLen t := by
  simp [goLen, string_data_append]

/-- filepath.Join for the simple dir/name case used by this code. -/
def goJoin (dir name : String) : String := dir ++ "/" ++ name

/-- Go strings.HasPrefix. -/
def goStartsWith (s pre : String) : Bool := pre.data.isPrefixOf s.data

/-- Go strings.SplitN(s, sep, 2): one list if sep is absent, else
the part before the first sep and everything after it. -/
def goSplitN2 (sep : Char) : List Char → List (List Char)
  | [] => [[]]
  | c :: rest =>
    if c = sep then [[], rest]
    else
      match goSplitN2 sep rest with
      | [pre] => [c :: pre]
      | pre :: post => (c :: pre) :: post
      | [] => [[c]]

/-- Go strings.Split(s, sep): split at every occurrence of sep. -/
def goSplitCh (sep : Char) : List Char → List (List Char)
  | [] => [[]]
  | c :: rest =>
    if c = sep then [] :: goSplitCh sep rest
    else
      match goSplitCh sep rest with
      | [] => [[c]]
      | g :: gs => (c :: g) :: gs

/-- A wall-clock instant at second granularity, as produced by Go's
time.Parse with the RFC3339 layout (fractional seconds not modelled).
offset = none renders as "Z" (UTC); some m is an explicit zone offset
of m minutes. -/
structure GoTime where
  year : Nat
  month : Nat
  day : Nat
  hour : Nat
  minute : Nat
  second : Nat
  offset : Option Int
deriving DecidableEq

/-- Gregorian leap year, as Go's time package. -/
def isLeap (y : Nat) : Bool := y % 4 = 0 && (y % 100 ≠ 0 || y % 400 = 0)

/-- Days in a month, as Go's time package daysIn. -/
def daysInMonth (y m : Nat) : Nat :=
  match m with
  | 2 => if isLeap y then 29 else 28
  | 4 => 30 | 6 => 30 | 9 => 30 | 11 => 30
  | _ => 31

/-- Two-digit zero-padded rendering. -/
def pad2 (n : Nat) : List Char := [digitChar (n / 10), digitChar (n % 10)]

/-- Four-digit zero-padded rendering. -/
def pad4 (n : Nat) : List Char := pad2 (n / 100) ++ pad2 (n % 100)

/-- RFC3339 rendering of a zone offset: "Z", or a signed hh:mm. -/
def fmtOffset : Option Int → List Char
  | none => ['Z']
  | some off =>
    (if off < 0 then '-' else '+') :: (pad2 (off.natAbs / 60) ++ ':' :: pad2 (off.natAbs % 60))

/-- Characters of the RFC3339 rendering of a GoTime
(Go's t.Format(time.RFC3339)). -/
def rfc3339Chars (t : GoTime) : List Char :=
  pad4 t.year ++ '-' :: (pad2 t.month ++ '-' :: (pad2 t.day ++ 'T' ::
    (pad2 t.hour ++ ':' :: (pad2 t.minute ++ ':' :: (pad2 t.second ++ fmtOffset t.offset)))))

/-- Go's t.Format(time.RFC3339). -/
def formatRFC3339 (t : GoTime) : String := ⟨rfc3339Chars t⟩

/-- Read two decimal digits. -/
def parse2 : List Char → Option (Nat × List Char)
  | a :: b :: rest =>
    if isDigitCh a && isDigitCh b then some (10 * digitVal a + digitVal b, rest) else none
  | _ => none

/-- Read four decimal digits. -/
def parse4 (l : List Char) : Option (Nat × List Char) :=
  match parse2 l with
  | none => none
  | some (hi, r) =>
    match parse2 r with
    | none => none
    | some (lo, r') => some (100 * hi + lo, r')

/-- Require a fixed character. -/
def expectCh (c : Char) : List Char → Option (List Char)
  | d :: rest => if d = c then some rest else none
  | [] => none

/-- Read the RFC3339 zone suffix (entire remaining input). -/
def parseOffset : List Char → Option (Option Int)
  | [] => none
  | c :: rest =>
    if c = 'Z' then (if rest = [] then some none else none)
    else if c = '+' ∨ c = '-' then
      match parse2 rest with
      | none => none
      | some (h, r1) =>
        match r1 with
        | ':' :: r2 =>
          match parse2 r2 with
          | some (mm, []) =>
            if h ≤ 23 ∧ mm ≤ 59 then
              some (some (if c = '-' then -(((60 * h + mm : Nat) : Int)) else ((60 * h + mm : Nat) : Int)))
            else none
          | _ => none
        | _ => none
    else none

/-- Go's time.Parse(time.RFC3339, s) on the character list, at second
granularity: fixed-width fields, delimiter characters, and the range
checks Go applies to each field. -/
def parseRFC3339Chars (l : List Char) : Option GoTime :=
  match parse4 l with
  | none => none
  | some (y, r1) =>
  match expectCh '-' r1 with
  | none => none
  | some r2 =>
  match parse2 r2 with
  | none => none
  | some (mo, r3) =>
  match expectCh '-' r3 with
  | none => none
  | some r4 =>
  match parse2 r4 with
  | none => none
  | some (d, r5) =>
  match expectCh 'T' r5 with
  | none => none
  | some r6 =>
  match parse2 r6 with
  | none => none
  | some (h, r7) =>
  match expectCh ':' r7 with
  | none => none
  | some r8 =>
  match parse2 r8 with
  | none => none
  | some (mi, r9) =>
  match expectCh ':' r9 with
  | none => none
  | some r10 =>
  match parse2 r10 with
  | none => none
  | some (s, r11) =>
  match parseOffset r11 with
  | none => none
  | some off =>
  if 1 ≤ mo ∧ mo ≤ 12 ∧ 1 ≤ d ∧ d ≤ daysInMonth y mo ∧ h ≤ 23 ∧ mi ≤ 59 ∧ s ≤ 59 then
    some ⟨y, mo, d, h, mi, s, off⟩
  else none

/-- Go's time.Parse(time.RFC3339, s). -/
def parseRFC3339 (s : String) : Option GoTime := parseRFC3339Chars s.data

/-- The GoTime values representable as an RFC3339 timestamp: the field
ranges Go's formatter and parser agree on. -/
def GoTime.validB (t : GoTime) : Bool :=
  decide (t.year ≤ 9999) && decide (1 ≤ t.month) && decide (t.month ≤ 12) &&
  decide (1 ≤ t.day) && decide (t.day ≤ daysInMonth t.year t.month) &&
  decide (t.hour ≤ 23) && decide (t.minute ≤ 59) && decide (t.second ≤ 59) &&
  (match t.offset with
   | none => true
   | some off => decide (off.natAbs ≤ 23 * 60 + 59))

theorem parse2_pad2 {n : Nat} (h : n ≤ 99) (r : List Char) :
    parse2 (pad2 n ++ r) = some (n, r) := by
  have h1 : n / 10 < 10 := by omega
  have h2 : n % 10 < 10 := Nat.mod_lt _ (by omega)
  simp [pad2, parse2, isDigitCh_digitChar h1, isDigitCh_digitChar h2,
    digitVal_digitChar h1, digitVal_digitChar h2, Nat.div_add_mod]

theorem parse2_pad2_nil {n : Nat} (h : n ≤ 99) : parse2 (pad2 n) = some (n, []) := by
  have := parse2_pad2 h []
  simpa using this

theorem expectCh_cons (c : Char) (r : List Char) : expectCh c (c :: r) = some r := by
  simp [expectCh]

theorem parse4_pad4 {n : Nat} (h : n ≤ 9999) (r : List Char) :
    parse4 (pad4 n ++ r) = some (n, r) := by
  have h1 : n / 100 ≤ 99 := by omega
  have h2 : n % 100 ≤ 99 := by omega
  rw [pad4, List.append_assoc]
  simp only [parse4, parse2_pad2 h1, parse2_pad2 h2]
  have hv : 100 * (n / 100) + n % 100 = n := by omega
  rw [hv]

theorem parseOffset_fmtOffset :
    ∀ (off : Option Int), (∀ o, off = some o → o.natAbs ≤ 1439) →
    parseOffset (fmtOffset off) = some off := by
  intro off hb
  match off with
  | none => rfl
  | some o =>
    have hobd : o.natAbs ≤ 1439 := hb o rfl
    have hh99 : o.natAbs / 60 ≤ 99 := by omega
    have hh : o.natAbs / 60 ≤ 23 := by omega
    have hm : o.natAbs % 60 ≤ 59 := by omega
    by_cases hneg : o < 0
    · have hfmt : fmtOffset (some o) =
          '-' :: (pad2 (o.natAbs / 60) ++ ':' :: pad2 (o.natAbs % 60)) := by
        rw [fmtOffset, if_pos hneg]
      rw [hfmt]
      simp only [parseOffset, parse2_pad2 hh99, parse2_pad2_nil (show o.natAbs % 60 ≤ 99 by omega),
        eq_false (show ¬(('-' : Char) = 'Z') by decide),
        eq_true (show (('-' : Char) = '+' ∨ ('-' : Char) = '-') by exact Or.inr rfl),
        eq_true (show (('-' : Char) = '-') by rfl), if_true, if_false, or_true, true_or]
      rw [if_pos (And.intro hh hm)]
      have : -(((60 * (o.natAbs / 60) + o.natAbs % 60 : Nat) : Int)) = o := by omega
      rw [this]
    · have hfmt : fmtOffset (some o) =
          '+' :: (pad2 (o.natAbs / 60) ++ ':' :: pad2 (o.natAbs % 60)) := by
        rw [fmtOffset, if_neg hneg]
      rw [hfmt]
      simp only [parseOffset, parse2_pad2 hh99, parse2_pad2_nil (show o.natAbs % 60 ≤ 99 by omega),
        eq_false (show ¬(('+' : Char) = 'Z') by decide),
        eq_true (show (('+' : Char) = '+' ∨ ('+' : Char) = '-') by exact Or.inl rfl),
        eq_false (show ¬(('+' : Char) = '-') by decide), if_true, if_false, true_or, or_false]
      rw [if_pos (And.intro hh hm)]
      have : (((60 * (o.natAbs / 60) + o.natAbs % 60 : Nat) : Int)) = o := by omega
      rw [this]

theorem parse_format (t : GoTime) (h : t.validB = true) :
    parseRFC3339Chars (rfc3339Chars t) = some t := by
  obtain ⟨y, mo, d, hh, mi, ss, off⟩ := t
  simp only [GoTime.validB, Bool.and_eq_true, decide_eq_true_eq] at h
  obtain ⟨⟨⟨⟨⟨⟨⟨⟨hy, hmo1⟩, hmo2⟩, hd1⟩, hd2⟩, hhh⟩, hmi⟩, hss⟩, hoff⟩ := h
  have hoffb : ∀ o, off = some o → o.natAbs ≤ 1439 := by
    intro o ho
    subst ho
    simpa using hoff
  have hpo : parseOffset (fmtOffset off) = some off := parseOffset_fmtOffset off hoffb
  simp only [rfc3339Chars, parseRFC3339Chars, parse4_pad4 hy, expectCh_cons,
    parse2_pad2 (show mo ≤ 99 by omega), parse2_pad2 (show d ≤ 99 by
      have := daysInMonth y mo
      have hdm : daysInMonth y mo ≤ 31 := by
        unfold daysInMonth
        split <;> first | omega | (split <;> omega)
      omega),
    parse2_pad2 (show hh ≤ 99 by omega), parse2_pad2 (show mi ≤ 99 by omega),
    parse2_pad2 (show ss ≤ 99 by omega), hpo]
  rw [if_pos (show 1 ≤ mo ∧ mo ≤ 12 ∧ 1 ≤ d ∧ d ≤ daysInMonth y mo ∧ hh ≤ 23 ∧ mi ≤ 59 ∧ ss ≤ 59
    from ⟨hmo1, hmo2, hd1, hd2, hhh, hmi, hss⟩)]

/-- The characters an RFC3339 rendering can contain. -/
def rfcChar (c : Char) : Bool :=
  isDigitCh c || c = '-' || c = ':' || c = 'T' || c = 'Z' || c = '+'

theorem mem_pad2 {n : Nat} (h : n ≤ 99) {c : Char} (hc : c ∈ pad2 n) : isDigitCh c = true := by
  have h1 : n / 10 < 10 := by omega
  have h2 : n % 10 < 10 := by omega
  simp only [pad2, List.mem_cons, List.not_mem_nil, or_false] at hc
  rcases hc with hc | hc <;> subst hc
  · exact isDigitCh_digitChar h1
  · exact isDigitCh_digitChar h2

theorem mem_pad4 {n : Nat} (h : n ≤ 9999) {c : Char} (hc : c ∈ pad4 n) : isDigitCh c = true := by
  simp only [pad4, List.mem_append] at hc
  rcases hc with hc | hc
  · exact mem_pad2 (by omega) hc
  · exact mem_pad2 (by omega) hc

theorem mem_fmtOffset {off : Option Int} (hb : ∀ o, off = some o → o.natAbs ≤ 1439)
    {c : Char} (hc : c ∈ fmtOffset off) : rfcChar c = true := by
  match off with
  | none =>
    simp only [fmtOffset, List.mem_cons, List.not_mem_nil, or_false] at hc
    subst hc
    decide
  | some o =>
    have hob : o.natAbs ≤ 1439 := hb o rfl
    simp only [fmtOffset, List.mem_cons, List.mem_append] at hc
    rcases hc with hc | hc | hc | hc
    · by_cases hneg : o < 0 <;> simp [hneg] at hc <;> subst hc <;> decide
    · have := mem_pad2 (show o.natAbs / 60 ≤ 99 by omega) hc
      simp [rfcChar, this]
    · subst hc; decide
    · have := mem_pad2 (show o.natAbs % 60 ≤ 99 by omega) hc
      simp [rfcChar, this]

theorem mem_rfc3339Chars {t : GoTime} (h : t.validB = true)
    {c : Char} (hc : c ∈ rfc3339Chars t) : rfcChar c = true := by
  obtain ⟨y, mo, d, hh, mi, ss, off⟩ := t
  simp only [GoTime.validB, Bool.and_eq_true, decide_eq_true_eq] at h
  obtain ⟨⟨⟨⟨⟨⟨⟨⟨hy, hmo1⟩, hmo2⟩, hd1⟩, hd2⟩, hhh⟩, hmi⟩, hss⟩, hoff⟩ := h
  have hoffb : ∀ o, off = some o → o.natAbs ≤ 1439 := by
    intro o ho; subst ho; simpa using hoff
  have hdm : daysInMonth y mo ≤ 31 := by
    unfold daysInMonth
    split <;> first | omega | (split <;> omega)
  simp only [rfc3339Chars, List.mem_append, List.mem_cons] at hc
  rcases hc with hc | hc | hc | hc | hc | hc | hc | hc | hc | hc | hc
  · exact by simp [rfcChar, mem_pad4 hy hc]
  · subst hc; decide
  · exact by simp [rfcChar, mem_pad2 (show mo ≤ 99 by omega) hc]
  · subst hc; decide
  · exact by simp [rfcChar, mem_pad2 (show d ≤ 99 by omega) hc]
  · subst hc; decide
  · exact by simp [rfcChar, mem_pad2 (show hh ≤ 99 by omega) hc]
  · subst hc; decide
  · exact by simp [rfcChar, mem_pad2 (show mi ≤ 99 by omega) hc]
  · subst hc; decide
  · rcases hc with hc | hc
    · exact by simp [rfcChar, mem_pad2 (show ss ≤ 99 by omega) hc]
    · exact mem_fmtOffset hoffb hc

theorem rfc_no_comma {t : GoTime} (h : t.validB = true) : ',' ∉ rfc3339Chars t := by
  intro hc
  have := mem_rfc3339Chars h hc
  simp [rfcChar, isDigitCh] at this

theorem rfc_no_semi {t : GoTime} (h : t.validB = true) : ';' ∉ rfc3339Chars t := by
  intro hc
  have := mem_rfc3339Chars h hc
  simp [rfcChar, isDigitCh] at this

/-- A single message sent to memlogd (Go struct LogMessage). -/
structure LogMessage where
  time : GoTime
  name : String
  message : String
deriving DecidableEq

/-- Go: func (m *LogMessage) String() — the rendering with which the
consumer appends a message to a log file: RFC3339 time, service name
and body joined by single spaces. -/
def LogMessage.toStr (m : LogMessage) : String :=
  formatRFC3339 m.time ++ " " ++ m.name ++ " " ++ m.message

/-- Go: ParseLogMessage — reconstructs a LogMessage from a wire line
that looks like "<timestamp>,<origin>;<body>". -/
def ParseLogMessage (line : String) : Except String LogMessage :=
  match goSplitN2 ';' line.data with
  | [hd, body] =>
    (match goSplitCh ',' hd with
     | f0 :: f1 :: _ =>
       (match parseRFC3339 ⟨f0⟩ with
        | none => .error "parsing time: invalid RFC3339 timestamp"
        | some t => .ok ⟨t, ⟨f1⟩, ⟨body⟩⟩)
     | _ => .error ("Failed to parse log message: " ++ line))
  | _ => .error ("Failed to parse log message: " ++ line)

/-- Modelled from the spec: the daemon-side wire encoder is not part of
this repository (memlogd is out of scope); section 4.1 defines the
encoding of a LogMessage as the single line
"<RFC3339 timestamp>,<serviceName>;<body>". -/
def encodeWire (m : LogMessage) : String :=
  formatRFC3339 m.time ++ "," ++ m.name ++ ";" ++ m.message

theorem goSplitN2_no_sep {sep : Char} : ∀ {l : List Char}, sep ∉ l → goSplitN2 sep l = [l]
  | [], _ => rfl
  | c :: rest, h => by
    have hc : ¬(c = sep) := fun he => h (he ▸ List.mem_cons_self c rest)
    have hr : sep ∉ rest := fun hm => h (List.mem_cons_of_mem c hm)
    rw [goSplitN2, if_neg hc, goSplitN2_no_sep hr]

theorem goSplitN2_found {sep : Char} :
    ∀ {a : List Char} (b : List Char), sep ∉ a → goSplitN2 sep (a ++ sep :: b) = [a, b]
  | [], b, _ => by simp [goSplitN2]
  | c :: rest, b, h => by
    have hc : ¬(c = sep) := fun he => h (he ▸ List.mem_cons_self c rest)
    have hr : sep ∉ rest := fun hm => h (List.mem_cons_of_mem c hm)
    rw [List.cons_append, goSplitN2, if_neg hc, goSplitN2_found b hr]

theorem goSplitCh_no_sep {sep : Char} : ∀ {l : List Char}, sep ∉ l → goSplitCh sep l = [l]
  | [], _ => rfl
  | c :: rest, h => by
    have hc : ¬(c = sep) := fun he => h (he ▸ List.mem_cons_self c rest)
    have hr : sep ∉ rest := fun hm => h (List.mem_cons_of_mem c hm)
    rw [goSplitCh, if_neg hc, goSplitCh_no_sep hr]

theorem goSplitCh_found {sep : Char} :
    ∀ {a : List Char} (b : List Char), sep ∉ a →
    goSplitCh sep (a ++ sep :: b) = a :: goSplitCh sep b
  | [], b, _ => by simp [goSplitCh]
  | c :: rest, b, h => by
    have hc : ¬(c = sep) := fun he => h (he ▸ List.mem_cons_self c rest)
    have hr : sep ∉ rest := fun hm => h (List.mem_cons_of_mem c hm)
    rw [List.cons_append, goSplitCh, if_neg hc, goSplitCh_found b hr]

/-- goSplitCh never returns the empty list, and its first element is the
prefix before the first separator. -/
theorem goSplitCh_head (sep : Char) :
    ∀ (l : List Char), ∃ gs, goSplitCh sep l = l.takeWhile (· != sep) :: gs := by
  intro l
  induction l with
  | nil => exact ⟨[], rfl⟩
  | cons c rest ih =>
    by_cases hc : c = sep
    · refine ⟨goSplitCh sep rest, ?_⟩
      rw [goSplitCh, if_pos hc]
      have hbne : (c != sep) = false := by simp [hc]
      simp [List.takeWhile, hbne]
    · obtain ⟨gs, hgs⟩ := ih
      refine ⟨gs, ?_⟩
      rw [goSplitCh, if_neg hc, hgs]
      have hbne : (c != sep) = true := by simpa using hc
      simp [List.takeWhile, hbne]

/-- Classes of I/O error distinguished by the code (os.IsNotExist is the
only predicate it applies to an error). -/
inductive IOErr
  | notExist
  | exist
  | other
deriving DecidableEq

/-- The filesystem: an association list from path to file content
(first match wins; operations keep keys unique). -/
abbrev FS := List (String × String)

/-- Injected I/O failures. An empty oracle (noFail) is a failure-free
filesystem; entries make the corresponding operation fail, modelling
permission errors, full disks, bad descriptors and the like. -/
structure Oracle where
  failCreate : List String
  failWrite : List String
  failRename : List (String × String)
  failClose : Bool

/-- The failure-free oracle. -/
def noFail : Oracle := ⟨[], [], [], false⟩

def fsLookup : FS → String → Option String
  | [], _ => none
  | (q, c) :: rest, p => if q = p then some c else fsLookup rest p

def fsErase (fs : FS) (p : String) : FS := fs.filter (fun e => e.1 != p)

def fsSet (fs : FS) (p c : String) : FS := (p, c) :: fsErase fs p

/-- Go os.Create: creates or truncates the file at p. -/
def osCreate (o : Oracle) (fs : FS) (p : String) : Except IOErr FS :=
  if o.failCreate.contains p then .error .other else .ok (fsSet fs p "")

/-- Go os.Rename: fails with a not-exist error when the source is
absent; moves the content (replacing any destination) otherwise. -/
def osRename (o : Oracle) (fs : FS) (src dst : String) : Except IOErr FS :=
  match fsLookup fs src with
  | none => .error .notExist
  | some c =>
    if o.failRename.contains (src, dst) then .error .other
    else .ok (fsSet (fsErase fs src) dst c)

/-- Go io.WriteString on an append-positioned handle for path p. -/
def ioWriteString (o : Oracle) (fs : FS) (p s : String) : Except IOErr FS :=
  if o.failWrite.contains p then .error .other
  else .ok (fsSet fs p ((fsLookup fs p).getD "" ++ s))

/-- Go syscall.Mkfifo: fails if the path already exists. -/
def goMkfifo (o : Oracle) (fs : FS) (p : String) : Except IOErr FS :=
  if o.failCreate.contains p then .error .other
  else
    match fsLookup fs p with
    | some _ => .error .exist
    | none => .ok (fsSet fs p "")

/-- Go struct LogFile (the open file handle is identified by its path;
handle state beyond the path is not modelled). -/
structure LogFile where
  name : String
  dir : String
  bytesWritten : Nat
deriving DecidableEq

/-- The path of the active log file. -/
def LogFile.path (l : LogFile) : String := goJoin l.dir l.name

/-- Go NewLogFile: os.Create(filepath.Join(dir, name)), byte counter 0. -/
def NewLogFile (o : Oracle) (fs : FS) (dir name : String) : Except IOErr (LogFile × FS) :=
  match osCreate o fs (goJoin dir name) with
  | .error e => .error e
  | .ok fs' => .ok (⟨name, dir, 0⟩, fs')

/-- The body of Go's LogFile.Write after s := m.String(): append s, and
only on success add len(s) to the byte counter. -/
def LogFile.writeStr (o : Oracle) (fs : FS) (l : LogFile) (s : String) :
    Option IOErr × LogFile × FS :=
  match ioWriteString o fs l.path s with
  | .error e => (some e, l, fs)
  | .ok fs' => (none, { l with bytesWritten := l.bytesWritten + goLen s }, fs')

/-- Go LogFile.Write: append m.String() to the log file. -/
def LogFile.Write (o : Oracle) (fs : FS) (l : LogFile) (m : LogMessage) :
    Option IOErr × LogFile × FS :=
  LogFile.writeStr o fs l (LogMessage.toStr m)

/-- One iteration of the rotation loop at index i: rename path.(i-1) to
path.i, where index 0 takes the unsuffixed path as its source; a
source that does not exist is skipped. -/
def rotStep (o : Oracle) (path : String) (fs : FS) (i : Nat) : Except IOErr FS :=
  let newerFile := if i = 0 then path else path ++ "." ++ natStr (i - 1)
  let olderFile := path ++ "." ++ natStr i
  match osRename o fs newerFile olderFile with
  | .error .notExist => .ok fs
  | .error e => .error e
  | .ok fs' => .ok fs'

/-- Go's rotation loop: for i := maxLogFiles - 1; i >= 0; i-- (invoked
with n = maxLogFiles, processing indices n-1 down to 0). The partially
renamed filesystem is returned alongside any error. -/
def rotLoop (o : Oracle) (path : String) : FS → Nat → Option IOErr × FS
  | fs, 0 => (none, fs)
  | fs, i+1 =>
    match rotStep o path fs i with
    | .error e => (some e, fs)
    | .ok fs' => rotLoop o path fs' i

/-- Go LogFile.Rotate: close the handle, run the rename chain, then
create a fresh empty base file and reset the byte counter. On error the
LogFile fields are unchanged. -/
def LogFile.Rotate (o : Oracle) (fs : FS) (l : LogFile) (maxLogFiles : Nat) :
    Option IOErr × LogFile × FS :=
  if o.failClose then (some .other, l, fs)
  else
    match rotLoop o l.path fs maxLogFiles with
    | (some e, fs') => (some e, l, fs')
    | (none, fs') =>
      match osCreate o fs' l.path with
      | .error e => (some e, l, fs')
      | .ok fs'' => (none, { l with bytesWritten := 0 }, fs'')

/-- The rotation-chain file name for index j, where index -1 denotes the
unsuffixed base path (spec wording for the rename chain). -/
def chainName (path : String) (j : Int) : String :=
  if j < 0 then path else path ++ "." ++ natStr j.toNat

/-- The spec's rename chain: for each index i in the given list, rename
chainName (i-1) to chainName i; a rename whose source does not exist is
silently skipped, any other rename error aborts with that error. -/
def specRenameChain (o : Oracle) (path : String) : FS → List Int → Option IOErr × FS
  | fs, [] => (none, fs)
  | fs, i :: rest =>
    match osRename o fs (chainName path (i - 1)) (chainName path i) with
    | .error .notExist => specRenameChain o path fs rest
    | .error e => (some e, fs)
    | .ok fs' => specRenameChain o path fs' rest

/-- Indices maxFiles-1 down to 0, as the spec words the chain order. -/
def descIndices (n : Nat) : List Int := (List.range n).reverse.map (fun i => (i : Int))

/-- The spec's rotate(maxFiles): close the current handle; rename the
chain for i from maxFiles-1 down to 0 (index -1 being the base path),
skipping renames whose source does not exist and aborting on any other
rename error; then create a fresh empty file at the base path and reset
the byte counter to zero. -/
def rotateSpec (o : Oracle) (fs : FS) (l : LogFile) (maxFiles : Nat) :
    Option IOErr × LogFile × FS :=
  if o.failClose then (some .other, l, fs)
  else
    match specRenameChain o l.path fs (descIndices maxFiles) with
    | (some e, fs') => (some e, l, fs')
    | (none, fs') =>
      match osCreate o fs' l.path with
      | .error e => (some e, l, fs')
      | .ok fs'' => (none, { l with bytesWritten := 0 }, fs'')

theorem rotStep_chainName (o : Oracle) (path : String) (fs : FS) (k : Nat) :
    rotStep o path fs k =
      match osRename o fs (chainName path ((k : Int) - 1)) (chainName path (k : Int)) with
      | .error .notExist => .ok fs
      | .error e => .error e
      | .ok fs' => .ok fs' := by
  have hnew : chainName path ((k : Int) - 1) =
      if k = 0 then path else path ++ "." ++ natStr (k - 1) := by
    by_cases hk : k = 0
    · subst hk; simp [chainName]
    · rw [if_neg hk, chainName, if_neg (show ¬((k : Int) - 1 < 0) by omega)]
      have ht : ((k : Int) - 1).toNat = k - 1 := by omega
      rw [ht]
  have hold : chainName path (k : Int) = path ++ "." ++ natStr k := by
    rw [chainName, if_neg (show ¬((k : Int) < 0) by omega)]
    have ht : ((k : Int)).toNat = k := by omega
    rw [ht]
  rw [hnew, hold]
  simp only [rotStep]

theorem specRenameChain_eq_rotLoop (o : Oracle) (path : String) :
    ∀ (n : Nat) (fs : FS), specRenameChain o path fs (descIndices n) = rotLoop o path fs n := by
  intro n
  induction n with
  | zero => intro fs; rfl
  | succ k ih =>
    intro fs
    have hdesc : descIndices (k+1) = (k : Int) :: descIndices k := by
      simp [descIndices, List.range_succ]
    rw [hdesc]
    simp only [specRenameChain, rotLoop, rotStep_chainName]
    cases hr : osRename o fs (chainName path ((k : Int) - 1)) (chainName path (k : Int)) with
    | error e => cases e <;> simp [ih]
    | ok fs' => simp [ih]

theorem fsLookup_fsErase (fs : FS) (p q : String) :
    fsLookup (fsErase fs p) q = if p = q then none else fsLookup fs q := by
  induction fs with
  | nil => simp [fsErase, fsLookup]
  | cons e rest ih =>
    obtain ⟨r, c⟩ := e
    by_cases hrp : r = p
    · subst hrp
      have hdrop : fsErase ((r, c) :: rest) r = fsErase rest r := by
        simp [fsErase, List.filter_cons]
      rw [hdrop, ih]
      by_cases hpq : r = q
      · simp [hpq]
      · simp [hpq, fsLookup]
    · have hkeep : fsErase ((r, c) :: rest) p = (r, c) :: fsErase rest p := by
        simp [fsErase, List.filter_cons, hrp]
      rw [hkeep, fsLookup, ih]
      by_cases hrq : r = q
      · subst hrq
        simp [fsLookup, Ne.symm hrp]
      · by_cases hpq : p = q <;> simp [fsLookup, hrq, hpq]

theorem fsLookup_fsSet (fs : FS) (p c q : String) :
    fsLookup (fsSet fs p c) q = if p = q then some c else fsLookup fs q := by
  rw [fsSet, fsLookup, fsLookup_fsErase]
  by_cases hpq : p = q <;> simp [hpq]

/-- The path of the numbered rotation sibling i of a base path. -/
def sib (base : String) (i : Nat) : String := base ++ "." ++ natStr i

theorem sib_data (base : String) (i : Nat) :
    (sib base i).data = base.data ++ '.' :: natChars i := by
  rw [sib, string_data_append, string_data_append]
  simp [natStr]

theorem sib_ne_base (base : String) (i : Nat) : sib base i ≠ base := by
  intro h
  have hd : (sib base i).data = base.data := by rw [h]
  rw [sib_data] at hd
  have hl := congrArg List.length hd
  simp at hl

theorem sib_inj {base : String} {i j : Nat} (h : sib base i = sib base j) : i = j := by
  have hd := congrArg String.data h
  rw [sib_data, sib_data] at hd
  have h2 := List.append_cancel_left hd
  have h3 : natChars i = natChars j := by
    injection h2
  exact natChars_inj h3

/-- The sibling entries base.i ↦ cs[0], base.(i+1) ↦ cs[1], … . -/
def sibEntries (base : String) : Nat → List String → FS
  | _, [] => []
  | i, c :: cs => (sib base i, c) :: sibEntries base (i+1) cs

/-- The filesystem shape maintained by the rotation chain: the base file
with the current content, then the numbered siblings newest-first. -/
def chainFS (base : String) (cs : List String) (cur : String) : FS :=
  (base, cur) :: sibEntries base 0 cs

theorem sibEntries_append (base : String) :
    ∀ (xs ys : List String) (i : Nat),
    sibEntries base i (xs ++ ys) = sibEntries base i xs ++ sibEntries base (i + xs.length) ys := by
  intro xs
  induction xs with
  | nil => intro ys i; simp [sibEntries]
  | cons x xs ih =>
    intro ys i
    have h1 : (x :: xs) ++ ys = x :: (xs ++ ys) := rfl
    rw [h1, sibEntries, ih, sibEntries, List.cons_append, List.length_cons]
    have hlen : i + 1 + xs.length = i + (xs.length + 1) := by omega
    rw [hlen]

theorem fsLookup_sibEntries_at (base : String) :
    ∀ (cs : List String) (i t : Nat),
    fsLookup (sibEntries base i cs) (sib base (i + t)) = cs[t]? := by
  intro cs
  induction cs with
  | nil => intro i t; simp [sibEntries, fsLookup]
  | cons c cs ih =>
    intro i t
    rw [sibEntries, fsLookup]
    by_cases ht : t = 0
    · subst ht
      simp
    · have hne : ¬(sib base i = sib base (i + t)) := by
        intro he
        have := sib_inj he
        omega
      rw [if_neg hne]
      have ht' : i + t = (i + 1) + (t - 1) := by omega
      rw [ht', ih]
      have hg : (c :: cs)[t]? = cs[t - 1]? := by
        cases t with
        | zero => omega
        | succ u => simp
      rw [hg]

theorem fsLookup_sibEntries_none (base : String) :
    ∀ (cs : List String) (i : Nat) (q : String),
    (∀ t, i ≤ t → t < i + cs.length → q ≠ sib base t) →
    fsLookup (sibEntries base i cs) q = none := by
  intro cs
  induction cs with
  | nil => intro i q _; rfl
  | cons c cs ih =>
    intro i q hq
    rw [sibEntries, fsLookup]
    have hne : ¬(sib base i = q) := by
      intro he
      exact hq i (Nat.le_refl i) (by simp) he.symm
    rw [if_neg hne]
    apply ih
    intro t h1 h2
    exact hq t (by omega) (by simp; omega)

theorem fsErase_sibEntries (base : String) :
    ∀ (cs : List String) (i : Nat) (q : String),
    (∀ t, i ≤ t → t < i + cs.length → q ≠ sib base t) →
    fsErase (sibEntries base i cs) q = sibEntries base i cs := by
  intro cs
  induction cs with
  | nil => intro i q _; rfl
  | cons c cs ih =>
    intro i q hq
    rw [sibEntries, fsErase, List.filter_cons]
    have hne : (sib base i != q) = true := by
      have : q ≠ sib base i := hq i (Nat.le_refl i) (by simp)
      simpa using this.symm
    rw [hne]
    simp only [if_true]
    rw [show (List.filter (fun e => e.1 != q) (sibEntries base (i+1) cs) : FS)
        = fsErase (sibEntries base (i+1) cs) q from rfl]
    rw [ih]
    intro t h1 h2
    exact hq t (by omega) (by simp; omega)

theorem fsErase_sibEntries_base (base : String) (cs : List String) (i : Nat) :
    fsErase (sibEntries base i cs) base = sibEntries base i cs := by
  apply fsErase_sibEntries
  intro t _ _
  exact (sib_ne_base base t).symm

theorem fsLookup_append_left {a : FS} (b : FS) {q : String} {c : String}
    (h : fsLookup a q = some c) : fsLookup (a ++ b) q = some c := by
  induction a with
  | nil => simp [fsLookup] at h
  | cons e rest ih =>
    obtain ⟨r, d⟩ := e
    rw [fsLookup] at h
    rw [List.cons_append, fsLookup]
    by_cases hr : r = q
    · simpa [hr] using h
    · rw [if_neg hr] at h ⊢
      exact ih h

theorem fsLookup_append_right {a : FS} (b : FS) {q : String}
    (h : fsLookup a q = none) : fsLookup (a ++ b) q = fsLookup b q := by
  induction a with
  | nil => rfl
  | cons e rest ih =>
    obtain ⟨r, d⟩ := e
    rw [fsLookup] at h
    rw [List.cons_append, fsLookup]
    by_cases hr : r = q
    · simp [hr] at h
    · rw [if_neg hr] at h ⊢
      exact ih h

theorem fsErase_append (a b : FS) (q : String) :
    fsErase (a ++ b) q = fsErase a q ++ fsErase b q := by
  simp [fsErase, List.filter_append]

theorem fsErase_cons_ne {r q : String} (c : String) (Y : FS) (h : r ≠ q) :
    fsErase ((r, c) :: Y) q = (r, c) :: fsErase Y q := by
  simp [fsErase, List.filter_cons, h]

theorem fsErase_cons_eq {r q : String} (c : String) (Y : FS) (h : r = q) :
    fsErase ((r, c) :: Y) q = fsErase Y q := by
  simp [fsErase, List.filter_cons, h]

theorem osCreate_noFail (fs : FS) (p : String) :
    osCreate noFail fs p = .ok (fsSet fs p "") := rfl

theorem ioWriteString_noFail (fs : FS) (p s : String) :
    ioWriteString noFail fs p s = .ok (fsSet fs p ((fsLookup fs p).getD "" ++ s)) := rfl

theorem osRename_noFail (fs : FS) (src dst : String) {c : String}
    (h : fsLookup fs src = some c) :
    osRename noFail fs src dst = .ok (fsSet (fsErase fs src) dst c) := by
  rw [osRename, h]
  rfl

theorem osRename_noFail_missing (fs : FS) (src dst : String)
    (h : fsLookup fs src = none) :
    osRename noFail fs src dst = .error .notExist := by
  rw [osRename, h]

theorem listDropAt : ∀ (l : List String) (n : Nat) (c : String), l[n]? = some c →
    l.drop n = c :: l.drop (n+1) := by
  intro l
  induction l with
  | nil => intro n c h; simp at h
  | cons a t ih =>
    intro n c h
    cases n with
    | zero =>
      simp at h
      subst h
      simp
    | succ k =>
      have h' : t[k]? = some c := by simpa using h
      rw [List.drop_succ_cons, List.drop_succ_cons]
      exact ih k c h'

theorem getElemQ_take : ∀ (l : List String) (m n : Nat), n < m → (l.take m)[n]? = l[n]? := by
  intro l
  induction l with
  | nil => intro m n h; simp
  | cons a t ih =>
    intro m n h
    cases m with
    | zero => omega
    | succ mm =>
      cases n with
      | zero => simp
      | succ nn =>
        rw [List.take_succ_cons, List.getElem?_cons_succ, List.getElem?_cons_succ]
        exact ih mm nn (by omega)

theorem take_at_append : ∀ (l : List String) (n : Nat) (c : String), l[n]? = some c →
    l.take (n+1) = l.take n ++ [c] := by
  intro l
  induction l with
  | nil => intro n c h; simp at h
  | cons a t ih =>
    intro n c h
    cases n with
    | zero =>
      simp at h
      subst h
      simp
    | succ k =>
      have h' : t[k]? = some c := by simpa using h
      rw [List.take_succ_cons, List.take_succ_cons, List.cons_append, ih k c h']

/-- The filesystem part-way through the rotation loop, when the next
index to process is j: siblings above j have been shifted up by one,
siblings below j are still in place, and slot j is vacant. -/
def midFS (base : String) (K : Nat) (cs : List String) (cur : String) (j : Nat) : FS :=
  sibEntries base (j+1) ((cs.take K).drop j) ++ (base, cur) :: sibEntries base 0 (cs.take j)

theorem rotStep_mid (base cur : String) (cs : List String) (K j : Nat) (c : String)
    (hj1 : 1 ≤ j) (hjK : j ≤ K) (hK : K ≤ cs.length) (hc : cs[j-1]? = some c) :
    rotStep noFail base (midFS base K cs cur j) j = .ok (midFS base K cs cur (j-1)) := by
  have hlook3 : fsLookup (sibEntries base 0 (cs.take j)) (sib base (j-1)) = some c := by
    have h0 : sib base (j-1) = sib base (0 + (j-1)) := by rw [Nat.zero_add]
    rw [h0, fsLookup_sibEntries_at, getElemQ_take cs j (j-1) (by omega), hc]
  have hnone1 : fsLookup (sibEntries base (j+1) ((cs.take K).drop j)) (sib base (j-1)) = none := by
    apply fsLookup_sibEntries_none
    intro t h1 h2 he
    have := sib_inj he
    omega
  have hlookmid : fsLookup (midFS base K cs cur j) (sib base (j-1)) = some c := by
    rw [midFS, fsLookup_append_right _ hnone1, fsLookup,
        if_neg (show ¬(base = sib base (j-1)) from fun he => sib_ne_base base (j-1) he.symm),
        hlook3]
  have htake : cs.take j = cs.take (j-1) ++ [c] := by
    have hj : j = (j - 1) + 1 := by omega
    calc cs.take j = cs.take ((j-1)+1) := by rw [← hj]
    _ = cs.take (j-1) ++ [c] := take_at_append cs (j-1) c hc
  have hlent : (cs.take (j-1)).length = j - 1 := by
    rw [List.length_take]
    omega
  have hsib3 : sibEntries base 0 (cs.take j) =
      sibEntries base 0 (cs.take (j-1)) ++ [(sib base (j-1), c)] := by
    rw [htake, sibEntries_append, hlent, Nat.zero_add]
    rfl
  have herase : fsErase (midFS base K cs cur j) (sib base (j-1)) =
      sibEntries base (j+1) ((cs.take K).drop j) ++ (base, cur) :: sibEntries base 0 (cs.take (j-1)) := by
    rw [midFS, fsErase_append,
        fsErase_sibEntries base _ _ _ (by intro t h1 h2 he; have := sib_inj he; omega),
        fsErase_cons_ne _ _ (fun he => sib_ne_base base (j-1) he.symm),
        hsib3, fsErase_append,
        fsErase_sibEntries base _ _ _ (by
          intro t h1 h2 he
          have := sib_inj he
          rw [hlent] at h2
          omega)]
    have hlast : fsErase [(sib base (j-1), c)] (sib base (j-1)) = [] := by
      simp [fsErase, List.filter]
    rw [hlast, List.append_nil]
  have hdropd : (cs.take K).drop (j-1) = c :: (cs.take K).drop j := by
    have h1 : (cs.take K)[j-1]? = some c := by
      rw [getElemQ_take cs K (j-1) (by omega), hc]
    have h2 := listDropAt (cs.take K) (j-1) c h1
    have hj : (j - 1) + 1 = j := by omega
    rw [hj] at h2
    exact h2
  have hset : fsSet (sibEntries base (j+1) ((cs.take K).drop j) ++
        (base, cur) :: sibEntries base 0 (cs.take (j-1))) (sib base j) c
      = midFS base K cs cur (j-1) := by
    rw [fsSet, fsErase_append,
        fsErase_sibEntries base _ _ _ (by intro t h1 h2 he; have := sib_inj he; omega),
        fsErase_cons_ne _ _ (fun he => sib_ne_base base j he.symm),
        fsErase_sibEntries base _ _ _ (by
          intro t h1 h2 he
          have := sib_inj he
          rw [hlent] at h2
          omega)]
    rw [midFS, hdropd, sibEntries]
    have hj : (j - 1) + 1 = j := by omega
    rw [hj, List.cons_append]
  have hj0 : ¬(j = 0) := by omega
  simp only [rotStep, if_neg hj0]
  rw [show base ++ "." ++ natStr (j-1) = sib base (j-1) from rfl,
      show base ++ "." ++ natStr j = sib base j from rfl,
      osRename_noFail _ _ _ hlookmid, herase, hset]

theorem rotLoop_mid (base cur : String) (cs : List String) (K : Nat) (hK : K ≤ cs.length) :
    ∀ j, j ≤ K →
    rotLoop noFail base (midFS base K cs cur j) (j+1) =
      (none, sibEntries base 0 (cur :: cs.take K)) := by
  intro j
  induction j with
  | zero =>
    intro _
    have hmid0 : midFS base K cs cur 0 = sibEntries base 1 (cs.take K) ++ [(base, cur)] := by
      rw [midFS, List.drop_zero]
      rfl
    have hnone1 : fsLookup (sibEntries base 1 (cs.take K)) base = none := by
      apply fsLookup_sibEntries_none
      intro t _ _ he
      exact sib_ne_base base t he.symm
    have hlook : fsLookup (midFS base K cs cur 0) base = some cur := by
      rw [hmid0, fsLookup_append_right _ hnone1, fsLookup, if_pos rfl]
    have herase : fsErase (midFS base K cs cur 0) base = sibEntries base 1 (cs.take K) := by
      rw [hmid0, fsErase_append,
          fsErase_sibEntries base _ _ _ (by intro t _ _ he; exact sib_ne_base base t he.symm),
          fsErase_cons_eq _ _ rfl,
          show fsErase ([] : FS) base = [] from rfl, List.append_nil]
    have hset : fsSet (sibEntries base 1 (cs.take K)) (sib base 0) cur =
        sibEntries base 0 (cur :: cs.take K) := by
      rw [fsSet, fsErase_sibEntries base _ _ _ (by
        intro t h1 _ he
        have := sib_inj he
        omega)]
      rfl
    simp only [rotLoop, rotStep, eq_self_iff_true, if_true]
    rw [show base ++ "." ++ natStr 0 = sib base 0 from rfl,
        osRename_noFail _ _ _ hlook, herase, hset]
  | succ jj ih =>
    intro hj
    have hlt : jj < cs.length := by omega
    have hcx : cs[jj]? = some (cs.get ⟨jj, hlt⟩) := by
      simp [List.getElem?_eq_getElem hlt]
    have hstep := rotStep_mid base cur cs K (jj+1) (cs.get ⟨jj, hlt⟩)
      (by omega) hj hK hcx
    simp only [rotLoop]
    rw [hstep]
    exact ih (by omega)

theorem rotLoop_skip (base cur : String) (cs : List String) :
    ∀ d, rotLoop noFail base (chainFS base cs cur) (cs.length + 1 + d) =
         rotLoop noFail base (chainFS base cs cur) (cs.length + 1) := by
  intro d
  induction d with
  | zero => rfl
  | succ dd ih =>
    have hlook : fsLookup (chainFS base cs cur) (sib base (cs.length + dd)) = none := by
      rw [chainFS, fsLookup,
          if_neg (fun he => sib_ne_base base (cs.length + dd) he.symm)]
      apply fsLookup_sibEntries_none
      intro t h1 h2 he
      have := sib_inj he
      omega
    have hstep : rotStep noFail base (chainFS base cs cur) (cs.length + 1 + dd) =
        .ok (chainFS base cs cur) := by
      simp only [rotStep, if_neg (show ¬(cs.length + 1 + dd = 0) by omega)]
      rw [show cs.length + 1 + dd - 1 = cs.length + dd from by omega,
          show base ++ "." ++ natStr (cs.length + dd) = sib base (cs.length + dd) from rfl,
          osRename_noFail_missing _ _ _ hlook]
    have hsucc : cs.length + 1 + (dd + 1) = (cs.length + 1 + dd) + 1 := by omega
    rw [hsucc]
    simp only [rotLoop]
    rw [hstep]
    exact ih

theorem chainFS_eq_mid (base cur : String) (cs : List String) :
    chainFS base cs cur = midFS base cs.length cs cur cs.length := by
  rw [midFS, List.take_length, List.drop_length]
  rfl

theorem rotStep_full (base cur : String) (cs : List String) (hm : 2 ≤ cs.length)
    (c2 cL : String) (hc2 : cs[cs.length - 2]? = some c2) (hcL : cs[cs.length - 1]? = some cL) :
    rotStep noFail base (chainFS base cs cur) (cs.length - 1) =
      .ok (midFS base (cs.length - 1) cs cur (cs.length - 2)) := by
  have hlook : fsLookup (chainFS base cs cur) (sib base (cs.length - 2)) = some c2 := by
    rw [chainFS, fsLookup, if_neg (fun he => sib_ne_base base (cs.length - 2) he.symm)]
    have h0 : sib base (cs.length - 2) = sib base (0 + (cs.length - 2)) := by rw [Nat.zero_add]
    rw [h0, fsLookup_sibEntries_at]
    exact hc2
  have hlen1 : (cs.take (cs.length - 1)).length = cs.length - 1 := by
    rw [List.length_take]; omega
  have hlen2 : (cs.take (cs.length - 2)).length = cs.length - 2 := by
    rw [List.length_take]; omega
  have hsplit1 : cs = cs.take (cs.length - 1) ++ [cL] := by
    have h1 := take_at_append cs (cs.length - 1) cL hcL
    have h2 : (cs.length - 1) + 1 = cs.length := by omega
    rw [h2, List.take_length] at h1
    exact h1
  have hsplit2 : cs.take (cs.length - 1) = cs.take (cs.length - 2) ++ [c2] := by
    have h1 := take_at_append cs (cs.length - 2) c2 hc2
    have h2 : (cs.length - 2) + 1 = cs.length - 1 := by omega
    rw [h2] at h1
    exact h1
  have hsplit : cs = cs.take (cs.length - 2) ++ [c2, cL] := by
    conv_lhs => rw [hsplit1, hsplit2]
    rw [List.append_assoc]
    rfl
  have hsib : sibEntries base 0 cs = sibEntries base 0 (cs.take (cs.length - 2)) ++
      ((sib base (cs.length - 2), c2) :: [(sib base (cs.length - 1), cL)]) := by
    conv_lhs => rw [hsplit]
    rw [sibEntries_append, hlen2, Nat.zero_add]
    have harr : cs.length - 2 + 1 = cs.length - 1 := by omega
    rw [show sibEntries base (cs.length - 2) [c2, cL] =
        (sib base (cs.length - 2), c2) :: [(sib base (cs.length - 2 + 1), cL)] from rfl, harr]
  have herase : fsErase (chainFS base cs cur) (sib base (cs.length - 2)) =
      (base, cur) :: (sibEntries base 0 (cs.take (cs.length - 2)) ++
        [(sib base (cs.length - 1), cL)]) := by
    rw [chainFS, fsErase_cons_ne _ _ (fun he => sib_ne_base base (cs.length - 2) he.symm),
        hsib, fsErase_append,
        fsErase_sibEntries base _ _ _ (by
          intro t h1 h2 he
          have := sib_inj he
          rw [hlen2] at h2
          omega),
        fsErase_cons_eq _ _ rfl,
        fsErase_cons_ne _ _ (fun he => by have := sib_inj he; omega),
        show fsErase ([] : FS) (sib base (cs.length - 2)) = [] from rfl]
  have hdropd : (cs.take (cs.length - 1)).drop (cs.length - 2) = [c2] := by
    have h1 : (cs.take (cs.length - 1))[cs.length - 2]? = some c2 := by
      rw [getElemQ_take cs (cs.length - 1) (cs.length - 2) (by omega), hc2]
    have h2 := listDropAt (cs.take (cs.length - 1)) (cs.length - 2) c2 h1
    have h3 : (cs.take (cs.length - 1)).drop (cs.length - 2 + 1) = [] := by
      have h4 := List.drop_length (cs.take (cs.length - 1))
      rw [hlen1] at h4
      have h5 : cs.length - 2 + 1 = cs.length - 1 := by omega
      rw [h5]
      exact h4
    rw [h3] at h2
    exact h2
  have hset : fsSet ((base, cur) :: (sibEntries base 0 (cs.take (cs.length - 2)) ++
        [(sib base (cs.length - 1), cL)])) (sib base (cs.length - 1)) c2 =
      midFS base (cs.length - 1) cs cur (cs.length - 2) := by
    rw [fsSet, fsErase_cons_ne _ _ (fun he => sib_ne_base base (cs.length - 1) he.symm),
        fsErase_append,
        fsErase_sibEntries base _ _ _ (by
          intro t h1 h2 he
          have := sib_inj he
          rw [hlen2] at h2
          omega),
        fsErase_cons_eq _ _ rfl,
        show fsErase ([] : FS) (sib base (cs.length - 1)) = [] from rfl, List.append_nil]
    rw [midFS, hdropd]
    have harr : cs.length - 2 + 1 = cs.length - 1 := by omega
    rw [harr, show sibEntries base (cs.length - 1) [c2] =
        [(sib base (cs.length - 1), c2)] from rfl, List.singleton_append]
  have hj0 : ¬(cs.length - 1 = 0) := by omega
  simp only [rotStep, if_neg hj0]
  rw [show cs.length - 1 - 1 = cs.length - 2 from by omega,
      show base ++ "." ++ natStr (cs.length - 2) = sib base (cs.length - 2) from rfl,
      show base ++ "." ++ natStr (cs.length - 1) = sib base (cs.length - 1) from rfl,
      osRename_noFail _ _ _ hlook, herase, hset]

theorem rotLoop_full (base cur : String) (cs : List String) (hm : 2 ≤ cs.length) :
    rotLoop noFail base (chainFS base cs cur) cs.length =
      (none, sibEntries base 0 (cur :: cs.take (cs.length - 1))) := by
  obtain ⟨c2, hc2⟩ : ∃ c, cs[cs.length - 2]? = some c :=
    ⟨_, List.getElem?_eq_getElem (by omega)⟩
  obtain ⟨cL, hcL⟩ : ∃ c, cs[cs.length - 1]? = some c :=
    ⟨_, List.getElem?_eq_getElem (by omega)⟩
  have hstep := rotStep_full base cur cs hm c2 cL hc2 hcL
  have hloop := rotLoop_mid base cur cs (cs.length - 1) (by omega) (cs.length - 2) (by omega)
  have h1 : cs.length = (cs.length - 1) + 1 := by omega
  conv_lhs => rw [h1]
  simp only [rotLoop]
  rw [hstep]
  have h2 : cs.length - 1 = (cs.length - 2) + 1 := by omega
  rw [← h2] at hloop
  exact hloop

theorem rotLoop_one (base cur c0 : String) :
    rotLoop noFail base (chainFS base [c0] cur) 1 = (none, sibEntries base 0 [cur]) := by
  have hlook : fsLookup (chainFS base [c0] cur) base = some cur := by
    rw [chainFS, fsLookup, if_pos rfl]
  have herase : fsErase (chainFS base [c0] cur) base = [(sib base 0, c0)] := by
    rw [chainFS, fsErase_cons_eq _ _ rfl,
        fsErase_sibEntries base _ _ _ (by intro t _ _ he; exact sib_ne_base base t he.symm)]
    rfl
  have hset : fsSet [(sib base 0, c0)] (sib base 0) cur = [(sib base 0, cur)] := by
    rw [fsSet]
    have he : fsErase [(sib base 0, c0)] (sib base 0) = [] := by
      simp [fsErase, List.filter]
    rw [he]
  simp only [rotLoop, rotStep, eq_self_iff_true, if_true]
  rw [show base ++ "." ++ natStr 0 = sib base 0 from rfl,
      osRename_noFail _ _ _ hlook, herase, hset]
  rfl

theorem rotLoop_chain (base cur : String) (cs : List String) (N : Nat)
    (hN : 1 ≤ N) (hlen : cs.length ≤ N) :
    rotLoop noFail base (chainFS base cs cur) N =
      (none, sibEntries base 0 (cur :: cs.take (N - 1))) := by
  by_cases hsmall : cs.length ≤ N - 1
  · have htk : cs.take (N - 1) = cs := List.take_of_length_le hsmall
    rw [htk]
    have hN2 : N = cs.length + 1 + (N - 1 - cs.length) := by omega
    rw [hN2, rotLoop_skip, chainFS_eq_mid,
        rotLoop_mid base cur cs cs.length (Nat.le_refl _) cs.length (Nat.le_refl _),
        List.take_length]
  · have hlenN : cs.length = N := by omega
    by_cases hN1 : N = 1
    · subst hN1
      cases cs with
      | nil => simp at hlenN
      | cons c0 t =>
        cases t with
        | nil =>
          rw [rotLoop_one]
          rfl
        | cons x y =>
          exfalso
          simp only [List.length_cons] at hlenN
          omega
    · have hm2 : 2 ≤ cs.length := by omega
      rw [← hlenN]
      exact rotLoop_full base cur cs hm2

theorem Rotate_chain (l : LogFile) (cs : List String) (cur : String) (N : Nat)
    (hN : 1 ≤ N) (hlen : cs.length ≤ N) :
    LogFile.Rotate noFail (chainFS l.path cs cur) l N =
      (none, { l with bytesWritten := 0 }, chainFS l.path (cur :: cs.take (N - 1)) "") := by
  have hloop := rotLoop_chain l.path cur cs N hN hlen
  have hset : fsSet (sibEntries l.path 0 (cur :: cs.take (N - 1))) l.path "" =
      chainFS l.path (cur :: cs.take (N - 1)) "" := by
    rw [fsSet, fsErase_sibEntries l.path _ _ _
      (by intro t _ _ he; exact sib_ne_base l.path t he.symm), chainFS]
  simp only [LogFile.Rotate, show noFail.failClose = false from rfl, Bool.false_eq_true,
    if_false, hloop, osCreate_noFail, hset]

theorem writeStr_chain (l : LogFile) (cs : List String) (cur s : String) :
    LogFile.writeStr noFail (chainFS l.path cs cur) l s =
      (none, { l with bytesWritten := l.bytesWritten + goLen s }, chainFS l.path cs (cur ++ s)) := by
  have hl : fsLookup (chainFS l.path cs cur) l.path = some cur := by
    rw [chainFS, fsLookup, if_pos rfl]
  have hsetw : fsSet (chainFS l.path cs cur) l.path (cur ++ s) = chainFS l.path cs (cur ++ s) := by
    rw [fsSet, chainFS, fsErase_cons_eq _ _ rfl,
        fsErase_sibEntries l.path _ _ _ (by intro t _ _ he; exact sib_ne_base l.path t he.symm)]
    rfl
  simp only [LogFile.writeStr, ioWriteString_noFail, hl, Option.getD_some, hsetw]

/-- An operation in a log-file script: an append of one message, or a
size-triggered rotation. -/
inductive Op
  | write (m : LogMessage)
  | rotate
deriving DecidableEq

/-- Run a script against a LogFile exactly as the consumer does (the Go
main loop ignores the value returned by Rotate). -/
def runOps (o : Oracle) (N : Nat) : LogFile → FS → List Op → LogFile × FS
  | l, fs, [] => (l, fs)
  | l, fs, Op.write m :: rest =>
    runOps o N (LogFile.Write o fs l m).2.1 (LogFile.Write o fs l m).2.2 rest
  | l, fs, Op.rotate :: rest =>
    runOps o N (LogFile.Rotate o fs l N).2.1 (LogFile.Rotate o fs l N).2.2 rest

/-- Abstract chain state: the numbered sibling contents newest-first,
and the current base-file content. -/
def absStep (N : Nat) : (List String × String) → Op → (List String × String)
  | (cs, cur), Op.write m => (cs, cur ++ LogMessage.toStr m)
  | (cs, cur), Op.rotate => (cur :: cs.take (N - 1), "")

def absRun (N : Nat) (st : List String × String) (ops : List Op) : List String × String :=
  ops.foldl (absStep N) st

/-- The number of rotations in a script. -/
def rotCount (ops : List Op) : Nat :=
  ops.countP (fun op => match op with | Op.rotate => true | _ => false)

/-- Completed epochs (contents written between consecutive rotations)
oldest-first, together with the currently accumulating content. -/
def epochStep : (List String × String) → Op → (List String × String)
  | (done, cur), Op.write m => (done, cur ++ LogMessage.toStr m)
  | (done, cur), Op.rotate => (done ++ [cur], "")

def epochRun (st : List String × String) (ops : List Op) : List String × String :=
  ops.foldl epochStep st

theorem logfile_set_path (l : LogFile) (x : Nat) :
    (({ l with bytesWritten := x } : LogFile)).path = l.path := by
  cases l
  rfl

theorem writeStr_chain' (l : LogFile) (base : String) (hb : l.path = base)
    (cs : List String) (cur s : String) :
    LogFile.writeStr noFail (chainFS base cs cur) l s =
      (none, { l with bytesWritten := l.bytesWritten + goLen s }, chainFS base cs (cur ++ s)) := by
  subst hb
  exact writeStr_chain l cs cur s

theorem Rotate_chain' (l : LogFile) (base : String) (hb : l.path = base)
    (cs : List String) (cur : String) (N : Nat) (hN : 1 ≤ N) (hlen : cs.length ≤ N) :
    LogFile.Rotate noFail (chainFS base cs cur) l N =
      (none, { l with bytesWritten := 0 }, chainFS base (cur :: cs.take (N - 1)) "") := by
  subst hb
  exact Rotate_chain l cs cur N hN hlen

theorem runOps_chain (N : Nat) (hN : 1 ≤ N) :
    ∀ (ops : List Op) (l : LogFile) (cs : List String) (cur : String), cs.length ≤ N →
    runOps noFail N { l with bytesWritten := goLen cur } (chainFS l.path cs cur) ops =
      ({ l with bytesWritten := goLen (absRun N (cs, cur) ops).2 },
        chainFS l.path (absRun N (cs, cur) ops).1 (absRun N (cs, cur) ops).2) := by
  intro ops
  induction ops with
  | nil => intro l cs cur h; rfl
  | cons op rest ih =>
    intro l cs cur h
    cases op with
    | write m =>
      have hw := writeStr_chain' { l with bytesWritten := goLen cur } l.path
        (logfile_set_path l _) cs cur (LogMessage.toStr m)
      simp only [runOps, LogFile.Write, hw]
      rw [show absRun N (cs, cur) (Op.write m :: rest)
          = absRun N (cs, cur ++ LogMessage.toStr m) rest from rfl,
        ← goLen_append cur (LogMessage.toStr m)]
      exact ih l cs (cur ++ LogMessage.toStr m) h
    | rotate =>
      have hr := Rotate_chain' { l with bytesWritten := goLen cur } l.path
        (logfile_set_path l _) cs cur N hN h
      simp only [runOps, hr]
      rw [show absRun N (cs, cur) (Op.rotate :: rest)
          = absRun N (cur :: cs.take (N - 1), "") rest from rfl]
      have hlen' : (cur :: cs.take (N - 1)).length ≤ N := by
        simp only [List.length_cons, List.length_take]
        omega
      exact ih l (cur :: cs.take (N - 1)) "" hlen'

theorem absRun_length (N : Nat) (hN : 1 ≤ N) :
    ∀ (ops : List Op) (cs : List String) (cur : String), cs.length ≤ N →
    (absRun N (cs, cur) ops).1.length = min (cs.length + rotCount ops) N := by
  intro ops
  induction ops with
  | nil =>
    intro cs cur h
    simp only [absRun, List.foldl_nil, rotCount, List.countP_nil]
    omega
  | cons op rest ih =>
    intro cs cur h
    cases op with
    | write m =>
      rw [show absRun N (cs, cur) (Op.write m :: rest)
          = absRun N (cs, cur ++ LogMessage.toStr m) rest from rfl,
          ih cs _ h]
      simp [rotCount, List.countP_cons]
    | rotate =>
      rw [show absRun N (cs, cur) (Op.rotate :: rest)
          = absRun N (cur :: cs.take (N - 1), "") rest from rfl]
      have hlen' : (cur :: cs.take (N - 1)).length ≤ N := by
        simp only [List.length_cons, List.length_take]
        omega
      rw [ih _ _ hlen']
      have hc : rotCount (Op.rotate :: rest) = rotCount rest + 1 := by
        simp [rotCount, List.countP_cons]
      rw [hc]
      have hl2 : (cur :: cs.take (N - 1)).length = 1 + min (N - 1) cs.length := by
        simp [List.length_take]
        omega
      rw [hl2]
      omega

theorem chainFS_lookup_base (base : String) (cs : List String) (cur : String) :
    fsLookup (chainFS base cs cur) base = some cur := by
  rw [chainFS, fsLookup, if_pos rfl]

theorem chainFS_lookup_sib (base : String) (cs : List String) (cur : String) (i : Nat) :
    fsLookup (chainFS base cs cur) (sib base i) = cs[i]? := by
  rw [chainFS, fsLookup, if_neg (fun he => sib_ne_base base i he.symm)]
  have h0 : sib base i = sib base (0 + i) := by rw [Nat.zero_add]
  rw [h0, fsLookup_sibEntries_at]

theorem fsLookup_sibEntries_complete (base : String) :
    ∀ (cs : List String) (i : Nat) (p c : String),
    fsLookup (sibEntries base i cs) p = some c →
    ∃ t, t < cs.length ∧ p = sib base (i + t) ∧ cs[t]? = some c := by
  intro cs
  induction cs with
  | nil => intro i p c h; simp [sibEntries, fsLookup] at h
  | cons x cs ih =>
    intro i p c h
    rw [sibEntries, fsLookup] at h
    by_cases hp : sib base i = p
    · refine ⟨0, by simp, ?_, ?_⟩
      · rw [← hp, Nat.add_zero]
      · rw [if_pos hp] at h
        simpa using h
    · rw [if_neg hp] at h
      obtain ⟨t, ht1, ht2, ht3⟩ := ih (i+1) p c h
      refine ⟨t + 1, by simp; omega, ?_, by simpa using ht3⟩
      have harr : (i + 1) + t = i + (t + 1) := by omega
      rw [harr] at ht2
      exact ht2

theorem chainFS_lookup_complete (base : String) (cs : List String) (cur : String) (p c : String)
    (h : fsLookup (chainFS base cs cur) p = some c) :
    (p = base ∧ c = cur) ∨ ∃ i, i < cs.length ∧ p = sib base i ∧ cs[i]? = some c := by
  rw [chainFS, fsLookup] at h
  by_cases hp : base = p
  · left
    rw [if_pos hp] at h
    exact ⟨hp.symm, (Option.some_inj.mp h).symm⟩
  · right
    rw [if_neg hp] at h
    obtain ⟨t, ht1, ht2, ht3⟩ := fsLookup_sibEntries_complete base cs 0 p c h
    rw [Nat.zero_add] at ht2
    exact ⟨t, ht1, ht2, ht3⟩

theorem absRun_epochRun (N : Nat) (hN : 1 ≤ N) :
    ∀ (ops : List Op) (done : List String) (cur : String),
    absRun N (done.reverse.take N, cur) ops =
      ((epochRun (done, cur) ops).1.reverse.take N, (epochRun (done, cur) ops).2) := by
  intro ops
  induction ops with
  | nil => intro done cur; rfl
  | cons op rest ih =>
    intro done cur
    cases op with
    | write m =>
      rw [show absRun N (done.reverse.take N, cur) (Op.write m :: rest)
          = absRun N (done.reverse.take N, cur ++ LogMessage.toStr m) rest from rfl,
          show epochRun (done, cur) (Op.write m :: rest)
          = epochRun (done, cur ++ LogMessage.toStr m) rest from rfl]
      exact ih done (cur ++ LogMessage.toStr m)
    | rotate =>
      have h1 : (done ++ [cur]).reverse = cur :: done.reverse := by simp
      have hstep : absRun N (done.reverse.take N, cur) (Op.rotate :: rest)
          = absRun N ((done ++ [cur]).reverse.take N, "") rest := by
        rw [show absRun N (done.reverse.take N, cur) (Op.rotate :: rest)
            = absRun N (cur :: (done.reverse.take N).take (N - 1), "") rest from rfl]
        have h2 : (cur :: done.reverse).take N = cur :: done.reverse.take (N - 1) := by
          have h3 : N = (N - 1) + 1 := by omega
          conv_lhs => rw [h3]
          rw [List.take_succ_cons]
        rw [List.take_take, h1, h2]
        have h4 : min (N - 1) N = N - 1 := by omega
        rw [h4]
      rw [hstep, show epochRun (done, cur) (Op.rotate :: rest)
          = epochRun (done ++ [cur], "") rest from rfl]
      exact ih (done ++ [cur]) ""

theorem absRun_snd_last_rotate (N : Nat) (st : List String × String) (ops : List Op) :
    (absRun N st (ops ++ [Op.rotate])).2 = "" := by
  rw [absRun, List.foldl_append]
  obtain ⟨cs, cur⟩ := List.foldl (absStep N) st ops
  rfl

/-- Consumer configuration: the log-dir, max-log-files and max-log-size
flag values. -/
structure Config where
  logDir : String
  maxLogFiles : Nat
  maxLogSize : Nat
deriving DecidableEq

/-- State of the consumer loop: the map from service name to its active
LogFile, and the filesystem. -/
structure ConsState where
  logs : List (String × LogFile)
  fs : FS
deriving DecidableEq

def lookupLog : List (String × LogFile) → String → Option LogFile
  | [], _ => none
  | (n, lf) :: rest, q => if n = q then some lf else lookupLog rest q

def setLog (logs : List (String × LogFile)) (n : String) (lf : LogFile) :
    List (String × LogFile) :=
  (n, lf) :: logs.filter (fun e => e.1 != n)

/-- main's lazy lookup-or-create of the per-service log file
(logs[msg.Name], with NewLogFile on a miss). -/
def getLogFile (o : Oracle) (cfg : Config) (st : ConsState) (name : String) :
    Except IOErr (LogFile × ConsState) :=
  match lookupLog st.logs name with
  | some lf => .ok (lf, st)
  | none =>
    match NewLogFile o st.fs cfg.logDir name with
    | .error e => .error e
    | .ok (lf, fs') => .ok (lf, ⟨setLog st.logs name lf, fs'⟩)

/-- main's post-append step: if BytesWritten exceeds max-log-size,
rotate synchronously; the error returned by Rotate is discarded. -/
def afterWrite (o : Oracle) (maxLogFiles maxLogSize : Nat) (l : LogFile) (fs : FS) :
    LogFile × FS :=
  if l.bytesWritten > maxLogSize then
    ((LogFile.Rotate o fs l maxLogFiles).2.1, (LogFile.Rotate o fs l maxLogFiles).2.2)
  else (l, fs)

/-- One iteration of main's read loop on an already-read line: parse
(logging and skipping bad lines), discard the consumer's own
logwrite-prefixed output, look up or create the log file, append, then
maybe rotate. none models process termination through log.Fatalf. -/
def processLine (o : Oracle) (cfg : Config) (st : ConsState) (line : String) :
    Option ConsState :=
  match ParseLogMessage line with
  | .error _ => some st
  | .ok msg =>
    if goStartsWith msg.name "logwrite" then some st
    else
      match getLogFile o cfg st msg.name with
      | .error _ => none
      | .ok (logF, st1) =>
        match LogFile.Write o st1.fs logF msg with
        | (some _, _, _) => none
        | (none, logF2, fs2) =>
          some ⟨setLog st1.logs msg.name
              (afterWrite o cfg.maxLogFiles cfg.maxLogSize logF2 fs2).1,
            (afterWrite o cfg.maxLogFiles cfg.maxLogSize logF2 fs2).2⟩

/-- The consumer loop over a finite prefix of the stream: none = the
process died via log.Fatalf; some st = all lines consumed. -/
def runConsumer (o : Oracle) (cfg : Config) : ConsState → List String → Option ConsState
  | st, [] => some st
  | st, line :: rest =>
    match processLine o cfg st line with
    | none => none
    | some st' => runConsumer o cfg st' rest

/-- The local-file sink (logging.go fileLog). -/
structure fileLog where
  dir : String

/-- fileLog.Open: os.Create(dir/name.log), create-or-truncate. -/
def fileLog.Open (f : fileLog) (o : Oracle) (fs : FS) (name : String) : Except IOErr FS :=
  osCreate o fs (goJoin f.dir (name ++ ".log"))

/-- fileLog.Path: ensure the log file exists via Open; on failure
return the discard sentinel, else the file's path. -/
def fileLog.Path (f : fileLog) (o : Oracle) (fs : FS) (name : String) : String × FS :=
  match f.Open o fs name with
  | .error _ => ("/dev/null", fs)
  | .ok fs' => (goJoin f.dir (name ++ ".log"), fs')

/-- The daemon-backed sink (logging.go remoteLog). -/
structure remoteLog where
  fifoDir : String

/-- remoteLog.Path: create a FIFO at fifoDir/name.log; on failure
return the discard sentinel. The background goroutine that opens the
FIFO and hands the descriptor to the daemon is concurrent I/O outside
this state model and does not affect the returned path. -/
def remoteLog.Path (r : remoteLog) (o : Oracle) (fs : FS) (name : String) : String × FS :=
  match goMkfifo o fs (goJoin r.fifoDir (name ++ ".log")) with
  | .error _ => ("/dev/null", fs)
  | .ok fs' => (goJoin r.fifoDir (name ++ ".log"), fs')

/-- Create the per-service log file in an empty directory, then run a
script of appends and triggered rotations. (With the empty oracle the
initial create cannot fail; the error branch is unreachable.) -/
def runScript (dir name : String) (N : Nat) (ops : List Op) : LogFile × FS :=
  match NewLogFile noFail [] dir name with
  | .error _ => (⟨name, dir, 0⟩, [])
  | .ok (l, fs) => runOps noFail N l fs ops

theorem runScript_spec (dir name : String) (N : Nat) (hN : 1 ≤ N) (ops : List Op) :
    runScript dir name N ops =
      ({ name := name, dir := dir, bytesWritten := goLen (absRun N ([], "") ops).2 },
        chainFS (goJoin dir name) (absRun N ([], "") ops).1 (absRun N ([], "") ops).2) := by
  have h0 := runOps_chain N hN ops ⟨name, dir, 0⟩ [] "" (by simp)
  exact h0

theorem getElemQ_isSome_iff {l : List String} {i : Nat} :
    (l[i]?).isSome = true ↔ i < l.length := by
  constructor
  · intro h
    by_contra hc
    rw [List.getElem?_eq_none (by omega)] at h
    simp at h
  · intro h
    rw [List.getElem?_eq_getElem h]
    rfl

theorem epochRun_length : ∀ (ops : List Op) (done : List String) (cur : String),
    (epochRun (done, cur) ops).1.length = done.length + rotCount ops := by
  intro ops
  induction ops with
  | nil => intro done cur; simp [epochRun, rotCount]
  | cons op rest ih =>
    intro done cur
    cases op with
    | write m =>
      rw [show epochRun (done, cur) (Op.write m :: rest)
          = epochRun (done, cur ++ LogMessage.toStr m) rest from rfl, ih]
      simp [rotCount, List.countP_cons]
    | rotate =>
      rw [show epochRun (done, cur) (Op.rotate :: rest)
          = epochRun (done ++ [cur], "") rest from rfl, ih]
      have hc : rotCount (Op.rotate :: rest) = rotCount rest + 1 := by
        simp [rotCount, List.countP_cons]
      rw [hc]
      simp
      omega

theorem goSplitN2_mem {sep : Char} : ∀ {l : List Char}, sep ∈ l →
    goSplitN2 sep l = [l.takeWhile (· != sep), (l.dropWhile (· != sep)).tail] := by
  intro l
  induction l with
  | nil => intro h; simp at h
  | cons c rest ih =>
    intro h
    by_cases hc : c = sep
    · subst hc
      rw [goSplitN2, if_pos rfl]
      simp [List.takeWhile_cons, List.dropWhile_cons]
    · have hr : sep ∈ rest := by
        rcases List.mem_cons.mp h with h | h
        · exact absurd h.symm hc
        · exact h
      have hbne : (c != sep) = true := by simpa using hc
      rw [goSplitN2, if_neg hc, ih hr]
      simp [List.takeWhile_cons, List.dropWhile_cons, hbne]

theorem goSplitCh_mem {sep : Char} : ∀ {l : List Char}, sep ∈ l →
    goSplitCh sep l =
      l.takeWhile (· != sep) :: goSplitCh sep ((l.dropWhile (· != sep)).tail) := by
  intro l
  induction l with
  | nil => intro h; simp at h
  | cons c rest ih =>
    intro h
    by_cases hc : c = sep
    · subst hc
      rw [goSplitCh, if_pos rfl]
      simp [List.takeWhile_cons, List.dropWhile_cons]
    · have hr : sep ∈ rest := by
        rcases List.mem_cons.mp h with h | h
        · exact absurd h.symm hc
        · exact h
      have hbne : (c != sep) = true := by simpa using hc
      rw [goSplitCh, if_neg hc, ih hr]
      simp [List.takeWhile_cons, List.dropWhile_cons, hbne]

/-- The RFC3339 UTC midnight instant of 2021-01-01, used in concrete
examples below. -/
def t2021 : GoTime := ⟨2021, 1, 1, 0, 0, 0, none⟩

/-- C4: LogFile.Rotate performs exactly the spec's algorithm: close the
current handle; for i from maxFiles-1 down to 0 rename path.(i-1) to
path.i with index -1 denoting the unsuffixed base path; a rename whose
source does not exist is silently skipped and any other rename error
aborts rotation with that error; on a successful chain a fresh empty
file is created at the base path and the byte counter resets to zero
(rotateSpec is that algorithm written from the spec's words). -/
theorem C4_rotate_algorithm (o : Oracle) (fs : FS) (l : LogFile) (n : Nat) :
    LogFile.Rotate o fs l n = rotateSpec o fs l n := by
  rw [LogFile.Rotate, rotateSpec, specRenameChain_eq_rotLoop]

/-- C7: the byte counter is 0 after NewLogFile, grows by exactly the
encoded message length on a successful Write, is unchanged by a failed
Write, is reset to 0 by a successful Rotate, and over any failure-free
script it equals the byte count of the content appended to the current
base file since the last rotation. -/
theorem C7_byte_counter :
    (∀ (o : Oracle) (fs : FS) (dir name : String) (lf : LogFile) (fs' : FS),
        NewLogFile o fs dir name = .ok (lf, fs') → lf.bytesWritten = 0)
    ∧ (∀ (o : Oracle) (fs : FS) (l : LogFile) (m : LogMessage),
        (LogFile.Write o fs l m).1 = none →
        ((LogFile.Write o fs l m).2.1).bytesWritten
          = l.bytesWritten + goLen (LogMessage.toStr m))
    ∧ (∀ (o : Oracle) (fs : FS) (l : LogFile) (m : LogMessage) (e : IOErr),
        (LogFile.Write o fs l m).1 = some e → (LogFile.Write o fs l m).2.1 = l)
    ∧ (∀ (o : Oracle) (fs : FS) (l : LogFile) (n : Nat),
        (LogFile.Rotate o fs l n).1 = none →
        ((LogFile.Rotate o fs l n).2.1).bytesWritten = 0)
    ∧ (∀ (dir name : String) (N : Nat) (ops : List Op), 1 ≤ N →
        ((runScript dir name N ops).1).bytesWritten = goLen ((absRun N ([], "") ops).2)) := by
  refine ⟨?_, ?_, ?_, ?_, ?_⟩
  · intro o fs dir name lf fs' h
    rw [NewLogFile] at h
    cases hc : osCreate o fs (goJoin dir name) with
    | error e => rw [hc] at h; exact absurd h (by simp)
    | ok fs2 =>
      rw [hc] at h
      simp only [Except.ok.injEq, Prod.mk.injEq] at h
      rw [← h.1]
  · intro o fs l m h
    rw [LogFile.Write, LogFile.writeStr] at h ⊢
    rcases hc : ioWriteString o fs l.path (LogMessage.toStr m) with e | fs2
    · rw [hc] at h
      simp at h
    · rfl
  · intro o fs l m e h
    rw [LogFile.Write, LogFile.writeStr] at h ⊢
    rcases hc : ioWriteString o fs l.path (LogMessage.toStr m) with e2 | fs2
    · rfl
    · rw [hc] at h
      simp at h
  · intro o fs l n h
    rw [LogFile.Rotate] at h ⊢
    rcases Bool.eq_false_or_eq_true o.failClose with hfc | hfc
    · rw [hfc] at h
      simp at h
    · rw [hfc] at h ⊢
      simp only [Bool.false_eq_true, if_false] at h ⊢
      rcases hrl : rotLoop o l.path fs n with ⟨err, fs'⟩
      rw [hrl] at h
      cases err with
      | some e => simp at h
      | none =>
        dsimp only at h ⊢
        rcases hoc : osCreate o fs' l.path with e2 | fs''
        · rw [hoc] at h
          simp at h
        · rfl
  · intro dir name N ops hN
    rw [runScript_spec dir name N hN ops]

/-- C7 witness: the four conditional clauses instantiated at concrete
inputs (a successful create, a successful and a failing write, and a
successful rotation), with every hypothesis discharged by evaluation. -/
theorem C7_byte_counter_witness :
    (NewLogFile noFail [] "/log" "app" = .ok (⟨"app", "/log", 0⟩, [(goJoin "/log" "app", "")])
       ∧ (⟨"app", "/log", 0⟩ : LogFile).bytesWritten = 0)
    ∧ ((LogFile.Write noFail [] ⟨"app", "/log", 7⟩ ⟨t2021, "app", "x"⟩).1 = none
       ∧ ((LogFile.Write noFail [] ⟨"app", "/log", 7⟩ ⟨t2021, "app", "x"⟩).2.1).bytesWritten
         = 7 + goLen (LogMessage.toStr ⟨t2021, "app", "x"⟩))
    ∧ ((LogFile.Write ⟨[], [goJoin "/log" "app"], [], false⟩ [] ⟨"app", "/log", 7⟩
          ⟨t2021, "app", "x"⟩).1 = some IOErr.other
       ∧ (LogFile.Write ⟨[], [goJoin "/log" "app"], [], false⟩ [] ⟨"app", "/log", 7⟩
          ⟨t2021, "app", "x"⟩).2.1 = ⟨"app", "/log", 7⟩)
    ∧ ((LogFile.Rotate noFail [] ⟨"app", "/log", 7⟩ 2).1 = none
       ∧ ((LogFile.Rotate noFail [] ⟨"app", "/log", 7⟩ 2).2.1).bytesWritten = 0)
    ∧ (1 ≤ 2 ∧ ((runScript "/log" "app" 2 [Op.write ⟨t2021, "app", "x"⟩]).1).bytesWritten
         = goLen ((absRun 2 ([], "") [Op.write ⟨t2021, "app", "x"⟩]).2)) :=
  ⟨⟨by rfl, C7_byte_counter.1 noFail [] "/log" "app" ⟨"app", "/log", 0⟩ _ (by rfl)⟩,
   ⟨by rfl, C7_byte_counter.2.1 noFail [] ⟨"app", "/log", 7⟩ ⟨t2021, "app", "x"⟩ (by rfl)⟩,
   ⟨by rfl, C7_byte_counter.2.2.1 ⟨[], [goJoin "/log" "app"], [], false⟩ [] ⟨"app", "/log", 7⟩
      ⟨t2021, "app", "x"⟩ IOErr.other (by rfl)⟩,
   ⟨by rfl, C7_byte_counter.2.2.2.1 noFail [] ⟨"app", "/log", 7⟩ 2 (by rfl)⟩,
   ⟨by decide, C7_byte_counter.2.2.2.2 "/log" "app" 2 [Op.write ⟨t2021, "app", "x"⟩] (by decide)⟩⟩

theorem data_mk (l : List Char) : (String.mk l).data = l := rfl

/-- The message used in the C1 example: a clean service name and body. -/
def c1msg : LogMessage := ⟨t2021, "svc", "hello"⟩

/-- C1 counterexample: the code's LogMessage.String() renders with
spaces ("<ts> <name> <body>"), not as "<ts>,<name>;<body>", so feeding
its output to ParseLogMessage fails even for a message whose service
name has no ','/';' and whose body has no newline. -/
theorem C1_counterexample :
    (',' ∉ c1msg.name.data ∧ ';' ∉ c1msg.name.data ∧ '\n' ∉ c1msg.message.data)
    ∧ LogMessage.toStr c1msg = "2021-01-01T00:00:00Z svc hello"
    ∧ ParseLogMessage (LogMessage.toStr c1msg)
        = .error ("Failed to parse log message: " ++ LogMessage.toStr c1msg) := by
  refine ⟨by decide, by rfl, by rfl⟩

/-- C1 (amended): the round-trip holds for the wire-format encoding
"<RFC3339 ts>,<name>;<body>" (the encoder lives in the out-of-scope
daemon; encodeWire is modelled from the spec): for every message with a
representable timestamp whose name is free of ',' and ';' and whose
body has no embedded newline, ParseLogMessage (encodeWire m) = ok m.
The code's LogMessage.toStr is not that encoder. -/
theorem C1_wire_roundtrip (m : LogMessage)
    (h1 : ',' ∉ m.name.data) (h2 : ';' ∉ m.name.data) (h3 : '\n' ∉ m.message.data)
    (hv : m.time.validB = true) :
    ParseLogMessage (encodeWire m) = .ok m := by
  obtain ⟨t, name, msg⟩ := m
  simp only at h1 h2 h3 hv
  have hdata : (encodeWire ⟨t, name, msg⟩).data
      = (rfc3339Chars t ++ ',' :: name.data) ++ ';' :: msg.data := by
    simp only [encodeWire, string_data_append]
    simp [formatRFC3339, List.append_assoc]
  have hsemi : ';' ∉ (rfc3339Chars t ++ ',' :: name.data) := by
    intro hm
    rcases List.mem_append.mp hm with hm | hm
    · exact rfc_no_semi hv hm
    · rcases List.mem_cons.mp hm with hm | hm
      · exact absurd hm (by decide)
      · exact h2 hm
  have hcomma : ',' ∉ rfc3339Chars t := rfc_no_comma hv
  simp only [ParseLogMessage, hdata, goSplitN2_found msg.data hsemi,
    goSplitCh_found name.data hcomma, goSplitCh_no_sep h1, parseRFC3339, data_mk,
    parse_format t hv, string_eta]

/-- C1 witness: the amended round-trip at a concrete message. -/
theorem C1_wire_roundtrip_witness :
    (',' ∉ c1msg.name.data ∧ ';' ∉ c1msg.name.data ∧ '\n' ∉ c1msg.message.data
      ∧ c1msg.time.validB = true)
    ∧ ParseLogMessage (encodeWire c1msg) = .ok c1msg :=
  ⟨⟨by decide, by decide, by decide, by decide⟩,
    C1_wire_roundtrip c1msg (by decide) (by decide) (by decide) (by decide)⟩

/-- Oracle for the C2 example: the only injected failure is that
closing a file fails, so rotation fails at its first step. -/
def c2oracle : Oracle := ⟨[], [], [], true⟩

def c2cfg : Config := ⟨"/log", 2, 10⟩

def c2line : String := "2021-01-01T00:00:00Z,app;hello world\n"

/-- C2 counterexample: the line's 37-byte append exceeds maxLogSize 10
and triggers rotation; rotation fails (close error), yet processLine
returns some (the loop continues with the counter unreset and no
rotated sibling) instead of terminating the process, because main
discards the value returned by Rotate. -/
theorem C2_counterexample :
    (LogFile.Rotate c2oracle [(goJoin "/log" "app", "2021-01-01T00:00:00Z app hello world\n")]
        ⟨"app", "/log", 37⟩ 2).1 = some IOErr.other
    ∧ processLine c2oracle c2cfg ⟨[], []⟩ c2line =
        some ⟨[("app", ⟨"app", "/log", 37⟩)],
          [(goJoin "/log" "app", "2021-01-01T00:00:00Z app hello world\n")]⟩ := by
  exact ⟨by rfl, by rfl⟩

/-- C2 (amended): an IOError from NewLogFile (log-file creation) or
from Write (append) is fatal — processLine returns none exactly in
those two cases — but an IOError from Rotate is discarded and the loop
continues; rotation failure never terminates the process. -/
theorem C2_fatal_characterization (o : Oracle) (cfg : Config) (st : ConsState) (line : String)
    (msg : LogMessage) (hp : ParseLogMessage line = .ok msg)
    (hpre : goStartsWith msg.name "logwrite" = false) :
    processLine o cfg st line = none ↔
      ((∃ e, getLogFile o cfg st msg.name = .error e) ∨
       (∃ lf st1 e, getLogFile o cfg st msg.name = .ok (lf, st1) ∧
          (LogFile.Write o st1.fs lf msg).1 = some e)) := by
  rw [processLine, hp]
  dsimp only
  rw [if_neg (by simp [hpre])]
  rcases hg : getLogFile o cfg st msg.name with e | pr
  · constructor
    · intro _
      exact Or.inl ⟨e, rfl⟩
    · intro _
      rfl
  · obtain ⟨lf, st1⟩ := pr
    dsimp only
    rcases hw : LogFile.Write o st1.fs lf msg with ⟨err, lf2, fs2⟩
    cases err with
    | some e =>
      constructor
      · intro _
        exact Or.inr ⟨lf, st1, e, rfl, by rw [hw]⟩
      · intro _
        rfl
    | none =>
      constructor
      · intro hcontra
        exact absurd hcontra (by simp)
      · rintro (⟨e, he⟩ | ⟨lf', st1', e, he1, he2⟩)
        · exact absurd he (by simp)
        · simp only [Except.ok.injEq, Prod.mk.injEq] at he1
          obtain ⟨hl, hs⟩ := he1
          rw [← hl, ← hs, hw] at he2
          exact absurd he2 (by simp)

/-- C2 witness: the amended characterization applied at a concrete
input where creation and append succeed, so processLine does not
terminate the process even though the triggered rotation fails. -/
theorem C2_fatal_characterization_witness :
    (ParseLogMessage c2line = .ok ⟨t2021, "app", "hello world\n"⟩
      ∧ goStartsWith "app" "logwrite" = false)
    ∧ ¬(processLine c2oracle c2cfg ⟨[], []⟩ c2line = none) :=
  ⟨⟨by rfl, by rfl⟩, by
    intro hnone
    have h := (C2_fatal_characterization c2oracle c2cfg ⟨[], []⟩ c2line
      ⟨t2021, "app", "hello world\n"⟩ (by rfl) (by rfl)).mp hnone
    have hget : getLogFile c2oracle c2cfg ⟨[], []⟩
        ((⟨t2021, "app", "hello world\n"⟩ : LogMessage)).name
        = .ok (⟨"app", "/log", 0⟩,
            ⟨[("app", ⟨"app", "/log", 0⟩)], [(goJoin "/log" "app", "")]⟩) := by rfl
    rcases h with ⟨e, he⟩ | ⟨lf, st1, e, he1, he2⟩
    · rw [hget] at he
      exact absurd he (by simp)
    · rw [hget] at he1
      simp only [Except.ok.injEq, Prod.mk.injEq] at he1
      obtain ⟨hl, hs⟩ := he1
      subst hl
      subst hs
      have hval : (LogFile.Write c2oracle
          ((⟨[("app", ⟨"app", "/log", 0⟩)], [(goJoin "/log" "app", "")]⟩ : ConsState)).fs
          ⟨"app", "/log", 0⟩ ⟨t2021, "app", "hello world\n"⟩).1 = none := by rfl
      rw [hval] at he2
      exact absurd he2 (by simp)⟩

def c3msg : LogMessage := ⟨t2021, "app", "x\n"⟩

/-- C3 counterexample: with maxFiles N = 1 and a script triggering
exactly one rotation, the claim predicts min(1, N-1) = 0 numbered
siblings, but the rename loop's last iteration (i = 0) renames the base
file to base.0, so base.0 exists and holds the rotated content. -/
theorem C3_counterexample :
    min 1 (1 - 1) = 0
    ∧ fsLookup (runScript "/log" "app" 1 [Op.write c3msg, Op.rotate]).2
        (sib (goJoin "/log" "app") 0) = some (LogMessage.toStr c3msg) := by
  exact ⟨by rfl, by rfl⟩

/-- C3 (amended): starting from an empty directory, for every
maxFiles N ≥ 1 and every failure-free script of appends and triggered
rotations containing exactly k rotations: exactly min(k, N) numbered
siblings exist afterwards (base.i exists iff i < min(k, N)); if the
script ends with a rotation, the base file is the freshly created empty
file; and every file's content is the currently accumulating epoch or
one of the N most recently completed epochs (positions ≥ k - N in the
oldest-first epoch list), so once k ≥ N + 1 the oldest epoch has been
evicted. -/
theorem C3_rotation_chain (dir name : String) (N : Nat) (ops : List Op) (hN : 1 ≤ N) :
    (∀ i : Nat, (fsLookup (runScript dir name N ops).2 (sib (goJoin dir name) i)).isSome = true
        ↔ i < min (rotCount ops) N)
    ∧ (∀ ops', ops = ops' ++ [Op.rotate] →
        fsLookup (runScript dir name N ops).2 (goJoin dir name) = some "")
    ∧ (N + 1 ≤ rotCount ops →
        ∀ p c, fsLookup (runScript dir name N ops).2 p = some c →
          c = (epochRun ([], "") ops).2 ∨
          ∃ j, rotCount ops - N ≤ j ∧ j < rotCount ops ∧
            (epochRun ([], "") ops).1[j]? = some c) := by
  have hrs := runScript_spec dir name N hN ops
  have hlen := absRun_length N hN ops [] "" (by simp)
  have habs := absRun_epochRun N hN ops [] ""
  simp only [List.reverse_nil, List.take_nil] at habs
  have hk : (epochRun ([], "") ops).1.length = rotCount ops := by
    rw [epochRun_length ops [] ""]
    simp
  refine ⟨?_, ?_, ?_⟩
  · intro i
    rw [hrs]
    dsimp only
    rw [chainFS_lookup_sib, getElemQ_isSome_iff, hlen]
    simp
  · intro ops' hops
    rw [hrs]
    dsimp only
    rw [chainFS_lookup_base, hops, absRun_snd_last_rotate]
  · intro hkN p c hlook
    rw [hrs] at hlook
    dsimp only at hlook
    have hcomp := chainFS_lookup_complete (goJoin dir name) _ _ p c hlook
    rcases hcomp with ⟨_, hc⟩ | ⟨i, hi, _, hci⟩
    · left
      rw [hc, habs]
    · right
      rw [habs] at hci hi
      dsimp only at hci hi
      -- hci : ((epochRun ([], "") ops).1.reverse.take N)[i]? = some c
      have hiN : i < N := by
        have := List.length_take N (epochRun ([], "") ops).1.reverse
        omega
      rw [getElemQ_take _ N i hiN] at hci
      have hirev : i < (epochRun ([], "") ops).1.reverse.length := by
        by_contra hcon
        rw [List.getElem?_eq_none (by omega)] at hci
        exact absurd hci (by simp)
      have hrevlen : (epochRun ([], "") ops).1.reverse.length = rotCount ops := by
        rw [List.length_reverse, hk]
      rw [List.getElem?_reverse (by omega)] at hci
      refine ⟨(epochRun ([], "") ops).1.length - 1 - i, ?_, ?_, hci⟩
      · rw [hk]
        omega
      · rw [hk]
        omega

/-- C3 witness: the amended chain law applied at N = 2 with a script of
one append and one rotation: base.0 exists since 0 < min(1, 2). -/
theorem C3_rotation_chain_witness :
    (1 ≤ 2)
    ∧ ((fsLookup (runScript "/log" "app" 2 [Op.write c3msg, Op.rotate]).2
        (sib (goJoin "/log" "app") 0)).isSome = true
      ↔ 0 < min (rotCount [Op.write c3msg, Op.rotate]) 2) :=
  ⟨by decide, (C3_rotation_chain "/log" "app" 2 [Op.write c3msg, Op.rotate] (by decide)).1 0⟩

def c5cfg : Config := ⟨"/var/log", 10, 50⟩

def c5line (body : String) : String := "2021-01-01T00:00:00Z,app;" ++ body

def c5msg (body : String) : LogMessage := ⟨t2021, "app", body⟩

/-- C5: rotation runs synchronously after a successful append exactly
when the byte counter strictly exceeds maxLogSize (afterWrite is the
post-append step of the loop); and concretely, from an empty directory
with maxLogSize = 50 and three messages of encoded size 30 for service
"app", exactly one rotation occurs (after the second message),
producing app.0 with the first two messages and app with only the
third. -/
theorem C5_rotation_trigger :
    (∀ (o : Oracle) (N mx : Nat) (l : LogFile) (fs : FS),
        (l.bytesWritten ≤ mx → afterWrite o N mx l fs = (l, fs)) ∧
        (mx < l.bytesWritten →
          afterWrite o N mx l fs =
            ((LogFile.Rotate o fs l N).2.1, (LogFile.Rotate o fs l N).2.2)))
    ∧ goLen (LogMessage.toStr (c5msg "aaaa\n")) = 30
    ∧ goLen (LogMessage.toStr (c5msg "bbbb\n")) = 30
    ∧ goLen (LogMessage.toStr (c5msg "cccc\n")) = 30
    ∧ runConsumer noFail c5cfg ⟨[], []⟩
        [c5line "aaaa\n", c5line "bbbb\n", c5line "cccc\n"] =
      some ⟨[("app", ⟨"app", "/var/log", 30⟩)],
        [(goJoin "/var/log" "app", LogMessage.toStr (c5msg "cccc\n")),
         (sib (goJoin "/var/log" "app") 0,
           LogMessage.toStr (c5msg "aaaa\n") ++ LogMessage.toStr (c5msg "bbbb\n"))]⟩
    ∧ fsLookup (match runConsumer noFail c5cfg ⟨[], []⟩
          [c5line "aaaa\n", c5line "bbbb\n", c5line "cccc\n"] with
        | some st => st.fs
        | none => []) (sib (goJoin "/var/log" "app") 1) = none := by
  refine ⟨?_, by rfl, by rfl, by rfl, by rfl, by rfl⟩
  intro o N mx l fs
  constructor
  · intro h
    rw [afterWrite, if_neg (by omega)]
  · intro h
    rw [afterWrite, if_pos (by omega)]

/-- C5 witness: both trigger clauses instantiated concretely: a
30-byte counter with threshold 50 does not rotate; a 60-byte counter
does. -/
theorem C5_rotation_trigger_witness :
    (30 ≤ 50 ∧ afterWrite noFail 10 50 ⟨"app", "/var/log", 30⟩ []
        = (⟨"app", "/var/log", 30⟩, []))
    ∧ (50 < 60 ∧ afterWrite noFail 10 50 ⟨"app", "/var/log", 60⟩ [] =
        ((LogFile.Rotate noFail [] ⟨"app", "/var/log", 60⟩ 10).2.1,
         (LogFile.Rotate noFail [] ⟨"app", "/var/log", 60⟩ 10).2.2)) :=
  ⟨⟨by decide, (C5_rotation_trigger.1 noFail 10 50 ⟨"app", "/var/log", 30⟩ []).1 (by decide)⟩,
   ⟨by decide, (C5_rotation_trigger.1 noFail 10 50 ⟨"app", "/var/log", 60⟩ []).2 (by decide)⟩⟩

/-- C8: a decoded message whose service name starts with the
consumer's reserved prefix "logwrite" is discarded before any log-file
lookup or creation: processing it leaves the consumer state (log-file
map and filesystem) exactly unchanged, and inserting any number of such
lines anywhere in the stream never changes the run's outcome, so such a
message is never written to any log file. -/
theorem C8_self_feedback (o : Oracle) (cfg : Config) (st : ConsState) (line : String)
    (msg : LogMessage) (hp : ParseLogMessage line = .ok msg)
    (hpre : goStartsWith msg.name "logwrite" = true) :
    processLine o cfg st line = some st
    ∧ ∀ (pre post : List String),
        runConsumer o cfg st (pre ++ line :: post) = runConsumer o cfg st (pre ++ post) := by
  have hstep : ∀ st' : ConsState, processLine o cfg st' line = some st' := by
    intro st'
    simp only [processLine, hp, hpre, if_true]
  refine ⟨hstep st, ?_⟩
  intro pre post
  induction pre generalizing st with
  | nil =>
    simp only [List.nil_append, runConsumer, hstep]
  | cons p pre ih =>
    simp only [List.cons_append, runConsumer]
    cases processLine o cfg st p with
    | none => rfl
    | some st2 => exact ih st2

/-- C8 witness: a concrete logwrite-prefixed line leaves the initial
state untouched. -/
theorem C8_self_feedback_witness :
    (ParseLogMessage "2021-01-01T00:00:00Z,logwrite;x\n" = .ok ⟨t2021, "logwrite", "x\n"⟩
      ∧ goStartsWith "logwrite" "logwrite" = true)
    ∧ processLine noFail c5cfg ⟨[], []⟩ "2021-01-01T00:00:00Z,logwrite;x\n" = some ⟨[], []⟩ :=
  ⟨⟨by rfl, by rfl⟩,
    (C8_self_feedback noFail c5cfg ⟨[], []⟩ "2021-01-01T00:00:00Z,logwrite;x\n"
      ⟨t2021, "logwrite", "x\n"⟩ (by rfl) (by rfl)).1⟩

/-- C6: ParseLogMessage fails exactly when the line has no ';', or the
part before the first ';' has fewer than two comma-separated fields
(no ','), or the first field does not parse as RFC3339; on success the
timestamp is the parsed field 0, the service name is header field 1,
and the body is everything after the first ';' (further ';' included);
and the concrete example decodes as stated. -/
theorem C6_parse_characterization (line : String) :
    ((ParseLogMessage line).isOk = false ↔ (';' ∉ line.data
      ∨ ',' ∉ line.data.takeWhile (· != ';')
      ∨ parseRFC3339 ⟨(line.data.takeWhile (· != ';')).takeWhile (· != ',')⟩ = none))
    ∧ (∀ t, parseRFC3339 ⟨(line.data.takeWhile (· != ';')).takeWhile (· != ',')⟩ = some t →
        ';' ∈ line.data → ',' ∈ line.data.takeWhile (· != ';') →
        ParseLogMessage line = .ok ⟨t,
          ⟨(((line.data.takeWhile (· != ';')).dropWhile (· != ',')).tail).takeWhile (· != ',')⟩,
          ⟨(line.data.dropWhile (· != ';')).tail⟩⟩)
    ∧ ParseLogMessage "2021-01-01T00:00:00Z,svc;hello world"
        = .ok ⟨t2021, "svc", "hello world"⟩ := by
  refine ⟨?_, ?_, by rfl⟩
  · by_cases hsemi : ';' ∈ line.data
    · by_cases hcomma : ',' ∈ line.data.takeWhile (· != ';')
      · obtain ⟨gs, hgs⟩ := goSplitCh_head ','
          (((line.data.takeWhile (· != ';')).dropWhile (· != ',')).tail)
        rcases hpt : parseRFC3339 ⟨(line.data.takeWhile (· != ';')).takeWhile (· != ',')⟩
          with _ | t
        · have hpt2 : parseRFC3339Chars
              ((line.data.takeWhile (· != ';')).takeWhile (· != ',')) = none := hpt
          have hP : ParseLogMessage line
              = .error "parsing time: invalid RFC3339 timestamp" := by
            simp only [ParseLogMessage, goSplitN2_mem hsemi, goSplitCh_mem hcomma, hgs,
              parseRFC3339, hpt2]
          rw [hP]
          simp [hsemi, hcomma, Except.isOk, Except.toBool]
        · have hpt2 : parseRFC3339Chars
              ((line.data.takeWhile (· != ';')).takeWhile (· != ',')) = some t := hpt
          have hP : ParseLogMessage line = .ok ⟨t,
              ⟨(((line.data.takeWhile (· != ';')).dropWhile (· != ',')).tail).takeWhile (· != ',')⟩,
              ⟨(line.data.dropWhile (· != ';')).tail⟩⟩ := by
            simp only [ParseLogMessage, goSplitN2_mem hsemi, goSplitCh_mem hcomma, hgs,
              parseRFC3339, hpt2]
          rw [hP]
          simp [hsemi, hcomma, Except.isOk, Except.toBool]
      · have hP : ParseLogMessage line = .error ("Failed to parse log message: " ++ line) := by
          simp only [ParseLogMessage, goSplitN2_mem hsemi, goSplitCh_no_sep hcomma]
        rw [hP]
        simp [hsemi, hcomma, Except.isOk, Except.toBool]
    · have hP : ParseLogMessage line = .error ("Failed to parse log message: " ++ line) := by
        simp only [ParseLogMessage, goSplitN2_no_sep hsemi]
      rw [hP]
      simp [hsemi, Except.isOk, Except.toBool]
  · intro t hpt hsemi hcomma
    have hpt2 : parseRFC3339Chars
        ((line.data.takeWhile (· != ';')).takeWhile (· != ',')) = some t := hpt
    obtain ⟨gs, hgs⟩ := goSplitCh_head ','
      (((line.data.takeWhile (· != ';')).dropWhile (· != ',')).tail)
    simp only [ParseLogMessage, goSplitN2_mem hsemi, goSplitCh_mem hcomma, hgs,
      parseRFC3339, hpt2]

/-- C6 witness: the success clause applied to the concrete example
line. -/
theorem C6_parse_characterization_witness :
    (parseRFC3339 ⟨(("2021-01-01T00:00:00Z,svc;hello world" : String).data.takeWhile
          (· != ';')).takeWhile (· != ',')⟩ = some t2021
      ∧ ';' ∈ ("2021-01-01T00:00:00Z,svc;hello world" : String).data
      ∧ ',' ∈ ("2021-01-01T00:00:00Z,svc;hello world" : String).data.takeWhile (· != ';'))
    ∧ ParseLogMessage "2021-01-01T00:00:00Z,svc;hello world"
        = .ok ⟨t2021,
          ⟨((("2021-01-01T00:00:00Z,svc;hello world" : String).data.takeWhile
              (· != ';')).dropWhile (· != ',')).tail.takeWhile (· != ',')⟩,
          ⟨(("2021-01-01T00:00:00Z,svc;hello world" : String).data.dropWhile (· != ';')).tail⟩⟩ :=
  ⟨⟨by rfl, by decide, by decide⟩,
    (C6_parse_characterization "2021-01-01T00:00:00Z,svc;hello world").2.1 t2021
      (by rfl) (by decide) (by decide)⟩

/-- C9: Path of both sink variants is total (it never returns an
error): the local-file variant ensures dir/name.log exists (creating
or truncating it) and returns that path, the remote variant creates
the FIFO fifoDir/name.log and returns that path, and when the
underlying creation fails either variant returns the sentinel discard
path "/dev/null" instead, so callers always receive some openable
destination. -/
theorem C9_path_total (o : Oracle) (fs : FS) (dir fifoDir name : String) :
    ((fileLog.Path ⟨dir⟩ o fs name).1 = "/dev/null"
      ∨ (fileLog.Path ⟨dir⟩ o fs name).1 = goJoin dir (name ++ ".log"))
    ∧ (o.failCreate.contains (goJoin dir (name ++ ".log")) = false →
        fileLog.Path ⟨dir⟩ o fs name =
          (goJoin dir (name ++ ".log"), fsSet fs (goJoin dir (name ++ ".log")) "")
        ∧ fsLookup (fileLog.Path ⟨dir⟩ o fs name).2 (goJoin dir (name ++ ".log")) = some "")
    ∧ (o.failCreate.contains (goJoin dir (name ++ ".log")) = true →
        fileLog.Path ⟨dir⟩ o fs name = ("/dev/null", fs))
    ∧ ((remoteLog.Path ⟨fifoDir⟩ o fs name).1 = "/dev/null"
      ∨ (remoteLog.Path ⟨fifoDir⟩ o fs name).1 = goJoin fifoDir (name ++ ".log"))
    ∧ (o.failCreate.contains (goJoin fifoDir (name ++ ".log")) = false →
        fsLookup fs (goJoin fifoDir (name ++ ".log")) = none →
        remoteLog.Path ⟨fifoDir⟩ o fs name =
          (goJoin fifoDir (name ++ ".log"), fsSet fs (goJoin fifoDir (name ++ ".log")) "")
        ∧ fsLookup (remoteLog.Path ⟨fifoDir⟩ o fs name).2
            (goJoin fifoDir (name ++ ".log")) = some "")
    ∧ (∀ e, goMkfifo o fs (goJoin fifoDir (name ++ ".log")) = .error e →
        remoteLog.Path ⟨fifoDir⟩ o fs name = ("/dev/null", fs)) := by
  refine ⟨?_, ?_, ?_, ?_, ?_, ?_⟩
  · simp only [fileLog.Path, fileLog.Open]
    rcases hc : osCreate o fs (goJoin dir (name ++ ".log")) with e | fs'
    · left; rfl
    · right; rfl
  · intro h
    have hc : osCreate o fs (goJoin dir (name ++ ".log"))
        = .ok (fsSet fs (goJoin dir (name ++ ".log")) "") := by
      simp only [osCreate, h, Bool.false_eq_true, if_false]
    refine ⟨?_, ?_⟩
    · simp only [fileLog.Path, fileLog.Open, hc]
    · simp only [fileLog.Path, fileLog.Open, hc]
      rw [fsLookup_fsSet, if_pos rfl]
  · intro h
    have hc : osCreate o fs (goJoin dir (name ++ ".log")) = .error IOErr.other := by
      simp only [osCreate, h, if_true]
    simp only [fileLog.Path, fileLog.Open, hc]
  · simp only [remoteLog.Path]
    rcases hc : goMkfifo o fs (goJoin fifoDir (name ++ ".log")) with e | fs'
    · left; rfl
    · right; rfl
  · intro h1 h2
    have hc : goMkfifo o fs (goJoin fifoDir (name ++ ".log"))
        = .ok (fsSet fs (goJoin fifoDir (name ++ ".log")) "") := by
      simp only [goMkfifo, h1, Bool.false_eq_true, if_false, h2]
    refine ⟨?_, ?_⟩
    · simp only [remoteLog.Path, hc]
    · simp only [remoteLog.Path, hc]
      rw [fsLookup_fsSet, if_pos rfl]
  · intro e he
    simp only [remoteLog.Path, he]

/-- Oracle for the C9 witness: creating /var/log/app.log fails. -/
def c9failOracle : Oracle := ⟨[goJoin "/var/log" ("app" ++ ".log")], [], [], false⟩

/-- C9 witness: the success and failure clauses of both variants at
concrete inputs. -/
theorem C9_path_total_witness :
    ((noFail.failCreate.contains (goJoin "/var/log" ("app" ++ ".log")) = false)
      ∧ (fileLog.Path ⟨"/var/log"⟩ noFail [] "app"
          = (goJoin "/var/log" ("app" ++ ".log"),
             fsSet [] (goJoin "/var/log" ("app" ++ ".log")) "")
        ∧ fsLookup (fileLog.Path ⟨"/var/log"⟩ noFail [] "app").2
            (goJoin "/var/log" ("app" ++ ".log")) = some ""))
    ∧ ((c9failOracle.failCreate.contains (goJoin "/var/log" ("app" ++ ".log")) = true)
      ∧ fileLog.Path ⟨"/var/log"⟩ c9failOracle [] "app" = ("/dev/null", []))
    ∧ ((goMkfifo noFail [(goJoin "/var/run" ("app" ++ ".log"), "")]
          (goJoin "/var/run" ("app" ++ ".log")) = .error IOErr.exist)
      ∧ remoteLog.Path ⟨"/var/run"⟩ noFail [(goJoin "/var/run" ("app" ++ ".log"), "")] "app"
          = ("/dev/null", [(goJoin "/var/run" ("app" ++ ".log"), "")]))
    ∧ ((noFail.failCreate.contains (goJoin "/var/run" ("app" ++ ".log")) = false
        ∧ fsLookup ([] : FS) (goJoin "/var/run" ("app" ++ ".log")) = none)
      ∧ (remoteLog.Path ⟨"/var/run"⟩ noFail [] "app"
          = (goJoin "/var/run" ("app" ++ ".log"),
             fsSet [] (goJoin "/var/run" ("app" ++ ".log")) "")
        ∧ fsLookup (remoteLog.Path ⟨"/var/run"⟩ noFail [] "app").2
            (goJoin "/var/run" ("app" ++ ".log")) = some "")) :=
  ⟨⟨by rfl, (C9_path_total noFail [] "/var/log" "/var/run" "app").2.1 (by rfl)⟩,
   ⟨by rfl, (C9_path_total c9failOracle [] "/var/log" "/var/run" "app").2.2.1 (by rfl)⟩,
   ⟨by rfl, (C9_path_total noFail [(goJoin "/var/run" ("app" ++ ".log"), "")]
      "/var/log" "/var/run" "app").2.2.2.2.2 IOErr.exist (by rfl)⟩,
   ⟨⟨by rfl, by rfl⟩,
    (C9_path_total noFail [] "/var/log" "/var/run" "app").2.2.2.2.1 (by rfl) (by rfl)⟩⟩

/-- C10: fileLog.Path for a service whose log file already exists
truncates it to empty as a side effect, because Path calls Open which
is os.Create (create-or-truncate): whenever the create succeeds, any
prior content at dir/name.log is destroyed. -/
theorem C10_path_truncates (o : Oracle) (fs : FS) (dir name c : String)
    (hold : fsLookup fs (goJoin dir (name ++ ".log")) = some c)
    (hok : o.failCreate.contains (goJoin dir (name ++ ".log")) = false) :
    fsLookup (fileLog.Path ⟨dir⟩ o fs name).2 (goJoin dir (name ++ ".log")) = some "" := by
  have hc : osCreate o fs (goJoin dir (name ++ ".log"))
      = .ok (fsSet fs (goJoin dir (name ++ ".log")) "") := by
    simp only [osCreate, hok, Bool.false_eq_true, if_false]
  simp only [fileLog.Path, fileLog.Open, hc]
  rw [fsLookup_fsSet, if_pos rfl]

/-- C10 witness: a pre-existing non-empty log file is emptied by
Path. -/
theorem C10_path_truncates_witness :
    (fsLookup [(goJoin "/d" ("app" ++ ".log"), "old")] (goJoin "/d" ("app" ++ ".log"))
        = some "old"
      ∧ noFail.failCreate.contains (goJoin "/d" ("app" ++ ".log")) = false)
    ∧ fsLookup (fileLog.Path ⟨"/d"⟩ noFail [(goJoin "/d" ("app" ++ ".log"), "old")] "app").2
        (goJoin "/d" ("app" ++ ".log")) = some "" :=
  ⟨⟨by rfl, by rfl⟩,
    C10_path_truncates noFail [(goJoin "/d" ("app" ++ ".log"), "old")] "/d" "app" "old"
      (by rfl) (by rfl)⟩
